import Mathlib

/-!
The stores and forms of task-spend-log

A shallow embedding of `src/src/contexts/ExpenseContext.tsx`: the data model
(`Expense`, `Project`, `ExpenseState`), the action type, the demo
`initialState` and the reducer `expenseReducer`; of the flat store of
`src/frontend/src/contexts/ExpenseContext.tsx` (namespace `Flat`); of the form
logic of `ExpenseForm.tsx`, `CreateProject.tsx`, `AddExpense.jsx` and
`AddProject.jsx`; and of the figures of `Dashboard.tsx` and the sorted expense
table of `ProjectDetail.tsx`.

Modelling choices:

* A `number` is a rational (`ℚ`): every finite double is one. `expenseReducer`
  takes `+` and `-` exactly, which is what the code computes wherever the exact
  result is a double; `Ieee.expenseReducer` is the same function with every
  result rounded to the nearest double, as the source computes it, and the
  claims about sums and cancellation are settled on it.
* `Date.now()` is an explicit argument `now : ℕ` of the reducer (milliseconds
  since the epoch); `Date.now().toString()` is `toString now`.
* JavaScript `===` / `!==` on strings are `==` / `!=` on `String`.
-/

namespace TaskSpendLog

/-! ## Data model (ExpenseContext.tsx, lines 3-27) -/

/-- Record `Expense` of the nested store. -/
structure Expense where
  id : String
  amount : ℚ
  description : String
  date : String
  projectId : String
deriving DecidableEq

/-- Record `Project` of the nested store, holding its own expense list. -/
structure Project where
  id : String
  name : String
  description : String
  totalSpent : ℚ
  expenses : List Expense
deriving DecidableEq

/-- Record `ExpenseState`: the whole store is one list of projects. -/
structure ExpenseState where
  projects : List Project
deriving DecidableEq

/-- Payload of `ADD_PROJECT`, the type `Omit<Project, 'id' | 'totalSpent' | 'expenses'>`. -/
structure ProjectPayload where
  name : String
  description : String
deriving DecidableEq

/-- Payload of `ADD_EXPENSE`, the type `Omit<Expense, 'id'>`. -/
structure ExpensePayload where
  amount : ℚ
  description : String
  date : String
  projectId : String
deriving DecidableEq

/-- Tagged union `ExpenseAction`. -/
inductive ExpenseAction where
  | ADD_PROJECT (payload : ProjectPayload)
  | ADD_EXPENSE (payload : ExpensePayload)
  | DELETE_PROJECT (payload : String)
  | DELETE_EXPENSE (projectId : String) (expenseId : String)
deriving DecidableEq

/-! ## Initial demo state (lines 29-53) -/

/-- Constant `initialState`: two demo projects with five demo expenses. -/
def initialState : ExpenseState :=
  { projects :=
      [ { id := "1"
          name := "Website Redesign"
          description := "Complete overhaul of company website with modern design"
          totalSpent := 4250
          expenses :=
            [ { id := "1", amount := 2500, description := "UI/UX Design Services",
                date := "2024-01-15", projectId := "1" },
              { id := "2", amount := 750, description := "Stock Photography License",
                date := "2024-01-20", projectId := "1" },
              { id := "3", amount := 1000, description := "Development Tools & Software",
                date := "2024-01-25", projectId := "1" } ] },
        { id := "2"
          name := "Marketing Campaign Q1"
          description := "Digital marketing push for Q1 product launch"
          totalSpent := 3751 / 2
          expenses :=
            [ { id := "4", amount := 1200, description := "Google Ads Campaign",
                date := "2024-02-01", projectId := "2" },
              { id := "5", amount := 1351 / 2, description := "Social Media Graphics",
                date := "2024-02-05", projectId := "2" } ] } ] }

/-! ## Reducer (lines 55-108) -/

/-- The expression `found?.amount || 0` of line 100: the amount of the expense
that `find` returned, and `0` when nothing was found or the amount is falsy. -/
def amountOrZero : Option Expense → ℚ
  | some e => if e.amount = 0 then 0 else e.amount
  | none => 0

/-- The object literal of lines 58-63: the project built by `ADD_PROJECT`. -/
def newProject (now : ℕ) (payload : ProjectPayload) : Project :=
  { name := payload.name
    description := payload.description
    id := toString now
    totalSpent := 0
    expenses := [] }

/-- The object literal of lines 70-73: the expense built by `ADD_EXPENSE`. -/
def newExpense (now : ℕ) (payload : ExpensePayload) : Expense :=
  { amount := payload.amount
    description := payload.description
    date := payload.date
    projectId := payload.projectId
    id := toString now }

/-- Function `expenseReducer`; `now` is the value `Date.now()` returns during the call. The
`+` of line 81 and the `-` of line 100 are exact here; `Ieee.expenseReducer` rounds them. -/
def expenseReducer (now : ℕ) (state : ExpenseState) : ExpenseAction → ExpenseState
  | .ADD_PROJECT payload =>
      { state with projects := state.projects ++ [newProject now payload] }
  | .ADD_EXPENSE payload =>
      { state with
        projects := state.projects.map fun project =>
          if project.id == payload.projectId then
            { project with
              expenses := project.expenses ++ [newExpense now payload]
              totalSpent := project.totalSpent + payload.amount }
          else project }
  | .DELETE_PROJECT payload =>
      { state with projects := state.projects.filter fun project => project.id != payload }
  | .DELETE_EXPENSE projectId expenseId =>
      { state with
        projects := state.projects.map fun project =>
          if project.id == projectId then
            { project with
              expenses := project.expenses.filter fun expense => expense.id != expenseId
              totalSpent := project.totalSpent -
                amountOrZero (project.expenses.find? fun e => e.id == expenseId) }
          else project }

/-- Error conditions a store command could signal to its caller. -/
inductive StoreError where
  | NotFound
deriving DecidableEq

/-- What a caller of `dispatch` observes. The body of `expenseReducer` contains no
`throw`: each of its four cases (and the `default` case) ends in a `return` of a
state, so the outcome is always a normal return carrying the next state. -/
def dispatchOutcome (now : ℕ) (state : ExpenseState) (action : ExpenseAction) :
    Except StoreError ExpenseState :=
  .ok (expenseReducer now state action)

/-- Applies a sequence of dispatched actions, each paired with the clock reading
taken while the reducer handles it (React feeds each action to the reducer in turn). -/
def run (state : ExpenseState) : List (ℕ × ExpenseAction) → ExpenseState
  | [] => state
  | (now, action) :: rest => run (expenseReducer now state action) rest

/-- Sum of the amounts of a list of expenses. -/
def sumAmounts (expenses : List Expense) : ℚ :=
  (expenses.map fun e => e.amount).sum

/-- Every project's `totalSpent` equals the sum of the amounts of its expenses. -/
def TotalsReconciled (state : ExpenseState) : Prop :=
  ∀ p ∈ state.projects, p.totalSpent = sumAmounts p.expenses

instance (state : ExpenseState) : Decidable (TotalsReconciled state) := by
  unfold TotalsReconciled; infer_instance

/-- All expense entries of the store, project by project, in stored order. -/
def allExpenses (state : ExpenseState) : List Expense :=
  state.projects.flatMap fun p => p.expenses

/-- An `ADD_EXPENSE` step is fresh when the id the clock gives the new expense is the id of
no expense already held by a project it is added to; every other action is fresh. -/
def FreshExpenseId (state : ExpenseState) (now : ℕ) : ExpenseAction → Prop
  | .ADD_EXPENSE payload =>
      ∀ p ∈ state.projects, p.id = payload.projectId → ∀ x ∈ p.expenses, x.id ≠ toString now
  | _ => True

instance (state : ExpenseState) (now : ℕ) (action : ExpenseAction) :
    Decidable (FreshExpenseId state now action) := by
  cases action <;> simp only [FreshExpenseId] <;> infer_instance

/-- Two `ADD_EXPENSE` actions for demo project "1" handled within the same millisecond. -/
def collidingAdds : List (ℕ × ExpenseAction) :=
  [ (1700000000000, .ADD_EXPENSE ⟨10, "Hosting", "2024-03-01", "1"⟩),
    (1700000000000, .ADD_EXPENSE ⟨20, "Domain name", "2024-03-01", "1"⟩) ]

/-- The id, running total and (id, amount) entries of every project: what a reader of the
store sees of the bookkeeping. -/
def ledger (state : ExpenseState) : List (String × ℚ × List (String × ℚ)) :=
  state.projects.map fun p => (p.id, p.totalSpent, p.expenses.map fun x => (x.id, x.amount))

/-- One delete of the colliding id after the two colliding adds. -/
def collidingAddsThenDelete : List (ℕ × ExpenseAction) :=
  collidingAdds ++ [(1700000000005, .DELETE_EXPENSE "1" "1700000000000")]

/-- A run with distinct clock readings: a new project, an expense on demo project "1", the
deletion of that expense, and the deletion of demo project "2". -/
def sampleFreshSteps : List (ℕ × ExpenseAction) :=
  [ (1700000000000, .ADD_PROJECT ⟨"Office Move", "Relocation of the design team"⟩),
    (1700000000001, .ADD_EXPENSE ⟨120, "Packing boxes", "2024-03-01", "1"⟩),
    (1700000000002, .DELETE_EXPENSE "1" "1700000000001"),
    (1700000000003, .DELETE_PROJECT "2") ]

/-! ## Identifiers handed out by the clock -/

/-- Reads a decimal string back as a number (most significant digit first). -/
def decodeNat (text : String) : ℕ :=
  text.data.foldl (fun acc c => acc * 10 + (c.toNat - 48)) 0

/-- The steps of consecutive `ADD_PROJECT` dispatches, each with its clock reading. -/
def addProjects (steps : List (ℕ × ProjectPayload)) : List (ℕ × ExpenseAction) :=
  steps.map fun step => (step.1, .ADD_PROJECT step.2)

/-- The ids of the projects that consecutive `ADD_PROJECT` dispatches appended to a state. -/
def assignedProjectIds (state : ExpenseState) (steps : List (ℕ × ProjectPayload)) :
    List String :=
  ((run state (addProjects steps)).projects.drop state.projects.length).map fun p => p.id

/-- No two projects share an id, and no two expenses of the store share an id, whether they
sit in one project or in different ones. -/
def UniqueIds (state : ExpenseState) : Prop :=
  (state.projects.map fun p => p.id).Nodup ∧ ((allExpenses state).map fun x => x.id).Nodup

instance (state : ExpenseState) : Decidable (UniqueIds state) := by
  unfold UniqueIds; infer_instance

/-- A step hands out an unused id: `ADD_PROJECT` reads a clock value whose string is the id
of no project of the state, `ADD_EXPENSE` one whose string is the id of no expense of the
state; deletions hand out no id. -/
def UnusedId (state : ExpenseState) (now : ℕ) : ExpenseAction → Prop
  | .ADD_PROJECT _ => ∀ p ∈ state.projects, p.id ≠ toString now
  | .ADD_EXPENSE _ => ∀ x ∈ allExpenses state, x.id ≠ toString now
  | _ => True

instance (state : ExpenseState) (now : ℕ) (action : ExpenseAction) :
    Decidable (UnusedId state now action) := by
  cases action <;> simp only [UnusedId] <;> infer_instance

/-- A sequence of steps each of which hands out an unused id in the state it acts on. -/
def UnusedIdRun (state : ExpenseState) : List (ℕ × ExpenseAction) → Prop
  | [] => True
  | (now, action) :: rest =>
      UnusedId state now action ∧ UnusedIdRun (expenseReducer now state action) rest

/-- Decision procedure for `UnusedIdRun`, step by step. -/
def decUnusedIdRun : (state : ExpenseState) → (steps : List (ℕ × ExpenseAction)) →
    Decidable (UnusedIdRun state steps)
  | _, [] => isTrue trivial
  | state, (now, action) :: rest =>
      @instDecidableAnd _ _ _ (decUnusedIdRun (expenseReducer now state action) rest)

instance (state : ExpenseState) (steps : List (ℕ × ExpenseAction)) :
    Decidable (UnusedIdRun state steps) :=
  decUnusedIdRun state steps

/-- Every stored expense carries the id of the project that holds it. -/
def OwnersConsistent (state : ExpenseState) : Prop :=
  ∀ p ∈ state.projects, ∀ x ∈ p.expenses, x.projectId = p.id

/-- Every stored expense references, through its `projectId`, a project of the state. -/
def ReferencesExist (state : ExpenseState) : Prop :=
  ∀ x ∈ allExpenses state, ∃ q ∈ state.projects, q.id = x.projectId

/-- The example scenario of the specification: one `ADD_PROJECT` read at clock value `t0`,
then two `ADD_EXPENSE` actions against the id that project received, read at `t1` and `t2`. -/
def scenarioSteps (t0 t1 t2 : ℕ) : List (ℕ × ExpenseAction) :=
  [ (t0, .ADD_PROJECT ⟨"Website Redesign", "Revamp"⟩),
    (t1, .ADD_EXPENSE ⟨2500, "UI/UX Design", "2024-01-15", toString t0⟩),
    (t2, .ADD_EXPENSE ⟨750, "Stock Photos", "2024-01-20", toString t0⟩) ]

/-- The scenario followed by the deletion, read at `t3`, of the id the first expense got. -/
def scenarioThenDelete (t0 t1 t2 t3 : ℕ) : List (ℕ × ExpenseAction) :=
  scenarioSteps t0 t1 t2 ++ [(t3, .DELETE_EXPENSE (toString t0) (toString t1))]

/-! ## JavaScript strings and numbers used by the forms

Form fields are JavaScript strings. They are modelled as `String`; `length` counts UTF-16
code units and `trim` strips the ECMAScript white space and line terminator characters.
`parseFloat`, the `Date` constructor and the clock are services of the host: they are
fields of a `Host` record, and every theorem holds for every host. -/

/-- The characters `String.prototype.trim` strips: ECMAScript WhiteSpace and LineTerminator. -/
def isJsWhitespace (c : Char) : Bool :=
  let n := c.toNat
  (9 ≤ n && n ≤ 13) || n == 32 || n == 160 || n == 5760 || (8192 ≤ n && n ≤ 8202) ||
    n == 8232 || n == 8233 || n == 8239 || n == 8287 || n == 12288 || n == 65279

/-- Method `trim` of a JavaScript string. -/
def jsTrim (text : String) : String :=
  String.mk ((text.data.dropWhile isJsWhitespace).rdropWhile isJsWhitespace)

/-- Property `length` of a JavaScript string: the number of UTF-16 code units. -/
def jsLength (text : String) : ℕ :=
  (text.data.map fun c => if c.toNat < 65536 then 1 else 2).sum

/-- A JavaScript `number` as `parseFloat` may return it: a finite value (every double is a
rational), `NaN`, or an infinity. -/
inductive JsNumber where
  | nan
  | finite (value : ℚ)
  | posInf
  | negInf
deriving DecidableEq

/-- Global function `isNaN` on a number. -/
def JsNumber.isNaN : JsNumber → Bool
  | .nan => true
  | _ => false

/-- Comparison `x <= bound` of a number with a finite literal. -/
def JsNumber.le (x : JsNumber) (bound : ℚ) : Bool :=
  match x with
  | .nan => false
  | .finite v => decide (v ≤ bound)
  | .posInf => false
  | .negInf => true

/-- Comparison `x > bound` of a number with a finite literal. -/
def JsNumber.gt (x : JsNumber) (bound : ℚ) : Bool :=
  match x with
  | .nan => false
  | .finite v => decide (bound < v)
  | .posInf => true
  | .negInf => false

/-- Comparison `selectedDate > other` of two `Date` objects: the time value of an invalid
date is `NaN`, which compares false. -/
def dateGt (selected : Option ℤ) (other : ℤ) : Bool :=
  match selected with
  | none => false
  | some t => decide (other < t)

/-- Comparison `selectedDate < other` of two `Date` objects, false for an invalid date. -/
def dateLt (selected : Option ℤ) (other : ℤ) : Bool :=
  match selected with
  | none => false
  | some t => decide (t < other)

/-! ## ExpenseForm (src/src/components/ExpenseForm.tsx) -/

namespace ExpenseForm

/-- Host services read by `validateForm`: `parseFloat`, `new Date(text)` (its time value in
milliseconds, `none` for an invalid date), the time value of `today = new Date()`, and that
of `oneYearAgo`, the `Date` of lines 64-65 moved back to the previous calendar year. -/
structure Host where
  parseFloat : String → JsNumber
  parseDate : String → Option ℤ
  today : ℤ
  oneYearAgo : ℤ

/-- State `formData` of the form. -/
structure FormData where
  amount : String
  description : String
  date : String
deriving DecidableEq

/-- Object `newErrors` of `validateForm`; the empty string stands for no error. -/
structure FormErrors where
  amount : String
  description : String
  date : String
deriving DecidableEq

/-- The object `newErrors` as `validateForm` has filled it in (lines 35-72). -/
def newErrors (host : Host) (formData : FormData) : FormErrors :=
  let amount := host.parseFloat formData.amount
  { amount :=
      if jsTrim formData.amount = "" then "Amount is required"
      else if amount.isNaN || amount.le 0 then "Amount must be a positive number"
      else if amount.gt 1000000 then "Amount seems unusually large"
      else ""
    description :=
      if jsTrim formData.description = "" then "Description is required"
      else if jsLength (jsTrim formData.description) < 3 then
        "Description must be at least 3 characters"
      else ""
    date :=
      if formData.date = "" then "Date is required"
      else if dateGt (host.parseDate formData.date) host.today then
        "Date cannot be in the future"
      else if dateLt (host.parseDate formData.date) host.oneYearAgo then
        "Date cannot be more than a year ago"
      else "" }

/-- Function `validateForm`: its return value
`!newErrors.amount && !newErrors.description && !newErrors.date`. -/
def validateForm (host : Host) (formData : FormData) : Bool :=
  let errors := newErrors host formData
  decide (errors.amount = "") && decide (errors.description = "") && decide (errors.date = "")

/-- Payload of the `ADD_EXPENSE` action the form dispatches, the amount still a `number`. -/
structure Dispatched where
  amount : JsNumber
  description : String
  date : String
  projectId : String
deriving DecidableEq

/-- Function `handleSubmit`: the payload it dispatches, `none` when it returns early. -/
def handleSubmit (host : Host) (projectId : String) (formData : FormData) :
    Option Dispatched :=
  if validateForm host formData then
    some { amount := host.parseFloat formData.amount
           description := jsTrim formData.description
           date := formData.date
           projectId := projectId }
  else none

end ExpenseForm

/-! ## CreateProject (src/src/pages/CreateProject.tsx) -/

namespace CreateProject

/-- State `formData` of the page. -/
structure FormData where
  name : String
  description : String
deriving DecidableEq

/-- Object `newErrors` of `validateForm`; the empty string stands for no error. -/
structure FormErrors where
  name : String
  description : String
deriving DecidableEq

/-- The object `newErrors` as `validateForm` has filled it in (lines 28-43). -/
def newErrors (formData : FormData) : FormErrors :=
  { name :=
      if jsTrim formData.name = "" then "Project name is required"
      else if jsLength (jsTrim formData.name) < 3 then
        "Project name must be at least 3 characters"
      else ""
    description :=
      if jsTrim formData.description = "" then "Project description is required"
      else if jsLength (jsTrim formData.description) < 10 then
        "Description must be at least 10 characters"
      else "" }

/-- Function `validateForm`: its return value `!newErrors.name && !newErrors.description`. -/
def validateForm (formData : FormData) : Bool :=
  let errors := newErrors formData
  decide (errors.name = "") && decide (errors.description = "")

/-- Function `handleSubmit`: the action it dispatches, `none` when it returns early. -/
def handleSubmit (formData : FormData) : Option ExpenseAction :=
  if validateForm formData then
    some (.ADD_PROJECT { name := jsTrim formData.name
                         description := jsTrim formData.description })
  else none

end CreateProject

/-! ## AddExpense (src/expense-tracker-frontend/src/components/expenses/AddExpense.jsx) -/

/-- Method `split` with the separator '.', on the characters of a string: the pieces
between the dots, in order (one piece more than there are dots). -/
def jsSplitDot : List Char → List (List Char)
  | [] => [[]]
  | c :: cs =>
      if c = '.' then [] :: jsSplitDot cs
      else
        match jsSplitDot cs with
        | piece :: pieces => (c :: piece) :: pieces
        | [] => [[c]]

namespace AddExpense

/-- Host services read by `validateForm`: `parseFloat`, `new Date(text)` (its time value,
`none` for an invalid date) and the time value of `today` after `setHours(23, 59, 59, 999)`. -/
structure Host where
  parseFloat : String → JsNumber
  parseDate : String → Option ℤ
  endOfToday : ℤ

/-- State `formData` of the component. -/
structure FormData where
  amount : String
  description : String
  date : String
deriving DecidableEq

/-- Object `errors` of `validateForm`: a key is either absent or holds a message. -/
structure Errors where
  amount : Option String
  description : Option String
  date : Option String
deriving DecidableEq

/-- The value `formattedValue` that `handleChange` computes for the amount field
(lines 27-32). -/
def formattedValue (value : String) : String :=
  let numericValue := value.data.filter fun c => c.isDigit || c == '.'
  let parts := jsSplitDot numericValue
  String.mk
    (if parts.length > 2 then parts.headD [] ++ '.' :: (parts.drop 1).flatten
     else numericValue)

/-- Function `handleChange`, as far as `formData` goes, for the three inputs of the form
(named "amount", "description" and "date"). -/
def handleChange (formData : FormData) (name value : String) : FormData :=
  if name = "amount" then { formData with amount := formattedValue value }
  else if name = "description" then { formData with description := value }
  else if name = "date" then { formData with date := value }
  else formData

/-- The object `errors` as `validateForm` has filled it in (lines 58-90); the literal
999999.99 is taken as the exact decimal. -/
def errors (host : Host) (formData : FormData) : Errors :=
  { amount :=
      if jsTrim formData.amount = "" then some "Amount is required"
      else
        let amount := host.parseFloat formData.amount
        if amount.isNaN || amount.le 0 then some "Amount must be a positive number"
        else if amount.gt (99999999 / 100) then some "Amount must be less than $1,000,000"
        else none
    description :=
      if jsTrim formData.description = "" then some "Description is required"
      else if jsLength formData.description > 255 then
        some "Description must be less than 255 characters"
      else none
    date :=
      if formData.date = "" then some "Date is required"
      else if dateGt (host.parseDate formData.date) host.endOfToday then
        some "Date cannot be in the future"
      else none }

/-- Function `validateForm`: its return value `Object.keys(errors).length === 0`. -/
def validateForm (host : Host) (formData : FormData) : Bool :=
  let found := errors host formData
  found.amount.isNone && found.description.isNone && found.date.isNone

end AddExpense

/-- A host for examples of AddExpense: every amount text parses to 12.5 and every date text
to the instant 1000, with the end of today at 2000. -/
def sampleAddExpenseHost : AddExpense.Host :=
  { parseFloat := fun _ => .finite (25 / 2)
    parseDate := fun _ => some 1000
    endOfToday := 2000 }

/-- A text of `n` copies of one character. -/
def repeatChar (c : Char) (n : ℕ) : String :=
  String.mk (List.replicate n c)

/-! ## The flat store (src/frontend/src/contexts/ExpenseContext.tsx, src/frontend/src/services/api.ts) -/

namespace Flat

/-- Interface `Project` of `api.ts`; an optional field is an `Option`. -/
structure Project where
  id : Option ℚ
  name : String
  description : String
  budget : ℚ
  created_at : Option String
  total_expenses : Option ℚ
deriving DecidableEq

/-- Interface `Expense` of `api.ts`; `project` is the id of the owning project. -/
structure Expense where
  id : Option ℚ
  project : ℚ
  description : String
  amount : ℚ
  date : String
  category : String
  created_at : Option String
deriving DecidableEq

/-- Interface `ExpenseState` of the flat store: two separate collections. -/
structure ExpenseState where
  projects : List Project
  expenses : List Expense
  currentProject : Option Project
  loading : Bool
  error : Option String
deriving DecidableEq

/-- Tagged union `ExpenseAction` of the flat store. -/
inductive ExpenseAction where
  | SET_LOADING (payload : Bool)
  | SET_ERROR (payload : Option String)
  | SET_PROJECTS (payload : List Project)
  | SET_EXPENSES (payload : List Expense)
  | SET_CURRENT_PROJECT (payload : Option Project)
  | ADD_PROJECT (payload : Project)
  | UPDATE_PROJECT (payload : Project)
  | DELETE_PROJECT (payload : ℚ)
  | ADD_EXPENSE (payload : Expense)
  | UPDATE_EXPENSE (payload : Expense)
  | DELETE_EXPENSE (payload : ℚ)
deriving DecidableEq

/-- Constant `initialState` of the flat store. -/
def initialState : ExpenseState :=
  { projects := [], expenses := [], currentProject := none, loading := false, error := none }

/-- The expression `state.currentProject?.id`: undefined without a current project. -/
def currentProjectId (state : ExpenseState) : Option ℚ :=
  state.currentProject.bind fun p => p.id

/-- Function `expenseReducer` of the flat store (lines 33-78). -/
def expenseReducer (state : ExpenseState) : ExpenseAction → ExpenseState
  | .SET_LOADING payload => { state with loading := payload }
  | .SET_ERROR payload => { state with error := payload, loading := false }
  | .SET_PROJECTS payload => { state with projects := payload }
  | .SET_EXPENSES payload => { state with expenses := payload }
  | .SET_CURRENT_PROJECT payload => { state with currentProject := payload }
  | .ADD_PROJECT payload => { state with projects := state.projects ++ [payload] }
  | .UPDATE_PROJECT payload =>
      { state with
        projects := state.projects.map fun project =>
          if project.id == payload.id then payload else project
        currentProject :=
          if currentProjectId state == payload.id then some payload else state.currentProject }
  | .DELETE_PROJECT payload =>
      { state with
        projects := state.projects.filter fun project => project.id != some payload
        currentProject :=
          if currentProjectId state == some payload then none else state.currentProject }
  | .ADD_EXPENSE payload => { state with expenses := state.expenses ++ [payload] }
  | .UPDATE_EXPENSE payload =>
      { state with
        expenses := state.expenses.map fun expense =>
          if expense.id == payload.id then payload else expense }
  | .DELETE_EXPENSE payload =>
      { state with expenses := state.expenses.filter fun expense => expense.id != some payload }

/-- A flat store holding project 7 and one expense of project 7, as loaded from the API. -/
def loadedState : ExpenseState :=
  expenseReducer
    (expenseReducer initialState
      (.SET_PROJECTS [ { id := some 7, name := "Office Move"
                         description := "Relocation of the design team", budget := 5000
                         created_at := none, total_expenses := some 120 } ]))
    (.SET_EXPENSES [ { id := some 31, project := 7, description := "Packing boxes"
                       amount := 120, date := "2024-03-01", category := "Supplies"
                       created_at := none } ])

end Flat

/-- A host for examples: every amount text parses to 12.5 and every date text to the
instant 1000, with `today` at 2000 and `oneYearAgo` at 500. -/
def sampleHost : ExpenseForm.Host :=
  { parseFloat := fun _ => .finite (25 / 2)
    parseDate := fun _ => some 1000
    today := 2000
    oneYearAgo := 500 }

/-! ## AddProject (src/expense-tracker-frontend/src/components/projects/AddProject.jsx) -/

namespace AddProject

/-- State `formData` of the component. -/
structure FormData where
  name : String
  description : String
deriving DecidableEq

/-- Object `errors` of `validateForm`: a key is either absent or holds a message. -/
structure Errors where
  name : Option String
  description : Option String
deriving DecidableEq

/-- The object `errors` as `validateForm` has filled it in (lines 40-50). -/
def errors (formData : FormData) : Errors :=
  { name :=
      if jsTrim formData.name = "" then some "Project name is required"
      else if jsLength formData.name > 100 then
        some "Project name must be less than 100 characters"
      else none
    description :=
      if jsLength formData.description > 500 then
        some "Description must be less than 500 characters"
      else none }

/-- Function `validateForm`: its return value `Object.keys(errors).length === 0`. -/
def validateForm (formData : FormData) : Bool :=
  let found := errors formData
  found.name.isNone && found.description.isNone

end AddProject

/-! ## Double arithmetic

A JavaScript `number` is an IEEE 754 binary64 value. Every finite double is a rational, and
`+` and `-` return the exact result rounded to the nearest double, ties to even. -/

/-- The power of two with an integer exponent. -/
def pow2 (k : ℤ) : ℚ :=
  if 0 ≤ k then ((2 ^ k.toNat : ℕ) : ℚ) else 1 / ((2 ^ (-k).toNat : ℕ) : ℚ)

/-- The position of the leading bit of `n`, that is the floor of its binary logarithm, for a
fuel of at least `n`. -/
def bitLog (fuel : ℕ) (n : ℕ) : ℕ :=
  match fuel with
  | 0 => 0
  | fuel + 1 => if n < 2 then 0 else bitLog fuel (n / 2) + 1

/-- The floor of the binary logarithm of a positive rational. -/
def floorLog2 (a : ℚ) : ℤ :=
  let k : ℤ := (bitLog a.num.natAbs a.num.natAbs : ℤ) - (bitLog a.den a.den : ℤ)
  if a < pow2 k then k - 1 else k

/-- The integer nearest to a non-negative rational, a tie going to the even neighbour. -/
def roundHalfEven (q : ℚ) : ℤ :=
  let f : ℤ := q.num / (q.den : ℤ)
  let r : ℚ := q - f
  if r < 1 / 2 then f
  else if 1 / 2 < r then f + 1
  else if f % 2 = 0 then f else f + 1

/-- The double nearest to a rational (round to nearest, ties to even): 53 significant bits,
exponents from -1022 up, subnormals below. A result of magnitude 2^1024 or more stands for an
overflow to an infinity; see `IsDouble`. -/
def roundDouble (x : ℚ) : ℚ :=
  if x = 0 then 0
  else
    let a := |x|
    let e := max (floorLog2 a) (-1022)
    let ulp := pow2 (e - 52)
    let n := roundHalfEven (a / ulp)
    if x < 0 then -((n : ℚ) * ulp) else (n : ℚ) * ulp

/-- The rational is a finite double: rounding leaves it as it is and it is below 2^1024. -/
def IsDouble (x : ℚ) : Prop :=
  roundDouble x = x ∧ |x| < pow2 1024

instance (x : ℚ) : Decidable (IsDouble x) := by
  unfold IsDouble; infer_instance

/-- Operator `+` on two numbers. -/
def jsAdd (a b : ℚ) : ℚ :=
  roundDouble (a + b)

/-- Operator `-` on two numbers. -/
def jsSub (a b : ℚ) : ℚ :=
  roundDouble (a - b)

namespace Ieee

/-- Function `expenseReducer` (lines 55-108) with the arithmetic of the source: the `+` of
line 81 and the `-` of line 100 are operations on doubles. -/
def expenseReducer (now : ℕ) (state : ExpenseState) : ExpenseAction → ExpenseState
  | .ADD_PROJECT payload =>
      { state with projects := state.projects ++ [newProject now payload] }
  | .ADD_EXPENSE payload =>
      { state with
        projects := state.projects.map fun project =>
          if project.id == payload.projectId then
            { project with
              expenses := project.expenses ++ [newExpense now payload]
              totalSpent := jsAdd project.totalSpent payload.amount }
          else project }
  | .DELETE_PROJECT payload =>
      { state with projects := state.projects.filter fun project => project.id != payload }
  | .DELETE_EXPENSE projectId expenseId =>
      { state with
        projects := state.projects.map fun project =>
          if project.id == projectId then
            { project with
              expenses := project.expenses.filter fun expense => expense.id != expenseId
              totalSpent := jsSub project.totalSpent
                (amountOrZero (project.expenses.find? fun e => e.id == expenseId)) }
          else project }

/-- Applies a sequence of dispatched actions with the arithmetic of the source. -/
def run (state : ExpenseState) : List (ℕ × ExpenseAction) → ExpenseState
  | [] => state
  | (now, action) :: rest => run (expenseReducer now state action) rest

end Ieee

/-- The addition or subtraction a step performs on a `totalSpent` is exact: its exact
result is a double, so no rounding takes place. -/
def ExactStep (state : ExpenseState) : ExpenseAction → Prop
  | .ADD_EXPENSE payload =>
      ∀ p ∈ state.projects, p.id = payload.projectId →
        IsDouble (p.totalSpent + payload.amount)
  | .DELETE_EXPENSE projectId expenseId =>
      ∀ p ∈ state.projects, p.id = projectId →
        IsDouble (p.totalSpent - amountOrZero (p.expenses.find? fun e => e.id == expenseId))
  | _ => True

instance (state : ExpenseState) (action : ExpenseAction) : Decidable (ExactStep state action) := by
  cases action <;> simp only [ExactStep] <;> infer_instance

/-- A `DELETE_EXPENSE` finds at most one expense with its id in each project it targets. -/
def SingleDelete (state : ExpenseState) : ExpenseAction → Prop
  | .DELETE_EXPENSE projectId expenseId =>
      ∀ p ∈ state.projects, p.id = projectId →
        (p.expenses.map fun x => x.id).count expenseId ≤ 1
  | _ => True

instance (state : ExpenseState) (action : ExpenseAction) :
    Decidable (SingleDelete state action) := by
  cases action <;> simp only [SingleDelete] <;> infer_instance

/-- A sequence of steps, run with the arithmetic of the source, in which every operation on
a `totalSpent` is exact and every `DELETE_EXPENSE` finds at most one expense. -/
def SoundRun (state : ExpenseState) : List (ℕ × ExpenseAction) → Prop
  | [] => True
  | (now, action) :: rest =>
      ExactStep state action ∧ SingleDelete state action ∧
        SoundRun (Ieee.expenseReducer now state action) rest

/-- Decision procedure for `SoundRun`, step by step. -/
def decSoundRun : (state : ExpenseState) → (steps : List (ℕ × ExpenseAction)) →
    Decidable (SoundRun state steps)
  | _, [] => isTrue trivial
  | state, (now, action) :: rest =>
      @instDecidableAnd _ _ _
        (@instDecidableAnd _ _ _ (decSoundRun (Ieee.expenseReducer now state action) rest))

instance (state : ExpenseState) (steps : List (ℕ × ExpenseAction)) :
    Decidable (SoundRun state steps) :=
  decSoundRun state steps

/-- A run with two adds in the same millisecond, the deletion of demo expense "2", a new
project and the deletion of demo project "2"; all amounts are whole numbers. -/
def sampleSoundSteps : List (ℕ × ExpenseAction) :=
  collidingAdds ++
    [ (1700000000005, .DELETE_EXPENSE "1" "2"),
      (1700000000006, .ADD_PROJECT ⟨"Office Move", "Relocation of the design team"⟩),
      (1700000000007, .DELETE_PROJECT "2") ]

/-- A run with fresh ids on a new project: expenses of 0.1, 0.2 and 0.3 (the doubles nearest
to them) are added, then the first one is deleted. -/
def driftSteps : List (ℕ × ExpenseAction) :=
  [ (1700000000000, .ADD_PROJECT ⟨"Office Move", "Relocation of the design team"⟩),
    (1700000000001, .ADD_EXPENSE ⟨roundDouble (1 / 10), "Tape", "2024-03-01", "1700000000000"⟩),
    (1700000000002, .ADD_EXPENSE ⟨roundDouble (2 / 10), "Labels", "2024-03-01", "1700000000000"⟩),
    (1700000000003, .ADD_EXPENSE ⟨roundDouble (3 / 10), "Markers", "2024-03-01", "1700000000000"⟩),
    (1700000000004, .DELETE_EXPENSE "1700000000000" "1700000000001") ]

/-- The demo state after a new project received one expense of 0.1. -/
def dimeState : ExpenseState :=
  Ieee.run initialState (driftSteps.take 2)

/-! ## Dashboard (src/src/pages/Dashboard.tsx, lines 12-14) -/

namespace Dashboard

/-- Constant `totalProjects`. -/
def totalProjects (state : ExpenseState) : ℕ :=
  state.projects.length

/-- Constant `totalSpent`: the `reduce` over the projects' `totalSpent` fields. -/
def totalSpent (state : ExpenseState) : ℚ :=
  state.projects.foldl (fun sum project => jsAdd sum project.totalSpent) 0

/-- Every addition of the `reduce` behind `totalSpent` is exact, starting from `sum`. -/
def ExactReduce : ℚ → List Project → Prop
  | _, [] => True
  | sum, project :: rest =>
      IsDouble (sum + project.totalSpent) ∧ ExactReduce (sum + project.totalSpent) rest

/-- Decision procedure for `ExactReduce`, project by project. -/
def decExactReduce : (sum : ℚ) → (projects : List Project) →
    Decidable (ExactReduce sum projects)
  | _, [] => isTrue trivial
  | sum, project :: rest =>
      @instDecidableAnd _ _ _ (decExactReduce (sum + project.totalSpent) rest)

instance (sum : ℚ) (projects : List Project) : Decidable (ExactReduce sum projects) :=
  decExactReduce sum projects

/-- Constant `totalExpenses`: the `reduce` over the lengths of the expense lists. -/
def totalExpenses (state : ExpenseState) : ℕ :=
  state.projects.foldl (fun sum project => sum + project.expenses.length) 0

end Dashboard

/-! ## ProjectDetail (src/src/pages/ProjectDetail.tsx, lines 45-47) -/

/-- Method `Array.prototype.sort` with a comparator whose result is a number (`none` for
`NaN`, which `sort` treats as 0). ECMAScript requires the sort to be stable; for a
consistent comparator every stable sort returns the same array, here the one the stable
merge sort of the library returns: `a` stays before `b` unless the comparator is positive. -/
def jsSort {α : Type} (compareFn : α → α → Option ℤ) (array : List α) : List α :=
  array.mergeSort fun a b =>
    match compareFn a b with
    | some v => decide (v ≤ 0)
    | none => true

namespace ProjectDetail

/-- Host service read by the comparator: the value of `new Date(text).getTime()`, `none`
standing for the `NaN` of an invalid date. -/
structure Host where
  getTime : String → Option ℤ

/-- The comparator `(a, b) => new Date(b.date).getTime() - new Date(a.date).getTime()`. -/
def compareFn (host : Host) (a b : Expense) : Option ℤ :=
  match host.getTime b.date, host.getTime a.date with
  | some tb, some ta => some (tb - ta)
  | _, _ => none

/-- The statement of lines 45-47: `sort` works on the copy `[...project.expenses]`, so the
project keeps its own array; the result is the project after the statement together with
the value of `sortedExpenses`. -/
def evalSortedExpenses (host : Host) (project : Project) : Project × List Expense :=
  let copy := project.expenses
  (project, jsSort (compareFn host) copy)

/-- Constant `sortedExpenses`, the list the page displays. -/
def sortedExpenses (host : Host) (project : Project) : List Expense :=
  (evalSortedExpenses host project).2

end ProjectDetail

/-- A host for examples: the digits of an ISO date text read as one number, so that
"2024-01-15" has the time value 20240115. -/
def sampleDateHost : ProjectDetail.Host :=
  { getTime := fun text => some (decodeNat (String.mk (text.data.filter Char.isDigit))) }

/-- The first project of the demo state. -/
def demoProject : Project :=
  initialState.projects.headD (newProject 0 ⟨"", ""⟩)

/-! ## Helper lemmas -/

/-- A conditional rewrite of a list changes nothing when the condition holds nowhere. -/
theorem map_ite_of_forall_false {α : Type} (c : α → Bool) (f : α → α) (l : List α)
    (h : ∀ a ∈ l, c a = false) : (l.map fun a => if c a then f a else a) = l := by
  induction l with
  | nil => rfl
  | cons a l ih =>
    have ha : c a = false := h a (List.mem_cons_self a l)
    have hl : ∀ b ∈ l, c b = false := fun b hb => h b (List.mem_cons_of_mem a hb)
    simp [ha, ih hl]

/-- A conditional rewrite of a list returns the list itself exactly when the rewrite
fixes every element the condition selects. -/
theorem map_ite_eq_self_iff {α : Type} (c : α → Bool) (f : α → α) (l : List α) :
    (l.map fun a => if c a then f a else a) = l ↔ ∀ a ∈ l, c a = true → f a = a := by
  induction l with
  | nil => simp
  | cons a l ih =>
    simp only [List.map_cons, List.cons.injEq, ih, List.mem_cons, forall_eq_or_imp]
    by_cases ha : c a = true <;> simp [ha]

/-- The nested `ADD_EXPENSE` case is the identity on a state none of whose projects has
the payload's projectId. -/
theorem add_expense_no_match (now : ℕ) (state : ExpenseState)
    (payload : ExpensePayload) (h : ∀ p ∈ state.projects, p.id ≠ payload.projectId) :
    expenseReducer now state (.ADD_EXPENSE payload) = state := by
  cases state with
  | mk projects =>
    simp only [expenseReducer, ExpenseState.mk.injEq]
    exact map_ite_of_forall_false _ _ _ fun p hp => by simpa using h p hp

/-! ## ADD_PROJECT -/

/-- C5: `ADD_PROJECT` with a name and a description yields the old project list, unchanged
and in the same order, followed by exactly one new project; that project carries the given
name and description, the clock reading as id, `totalSpent` 0 and no expenses. -/
theorem add_project_appends_one (now : ℕ) (state : ExpenseState) (name description : String) :
    ∃ p : Project,
      (expenseReducer now state (.ADD_PROJECT ⟨name, description⟩)).projects
          = state.projects ++ [p] ∧
      p.name = name ∧ p.description = description ∧ p.id = toString now ∧
      p.totalSpent = 0 ∧ p.expenses = [] :=
  ⟨newProject now ⟨name, description⟩, rfl, rfl, rfl, rfl, rfl, rfl⟩

/-! ## ADD_EXPENSE -/

/-- C2: `ADD_EXPENSE` whose projectId is the id of no project of the state returns a state
equal to the input state. -/
theorem add_expense_unknown_project_unchanged (now : ℕ) (state : ExpenseState)
    (payload : ExpensePayload) (h : ∀ p ∈ state.projects, p.id ≠ payload.projectId) :
    expenseReducer now state (.ADD_EXPENSE payload) = state :=
  add_expense_no_match now state payload h

/-- Witness for C2: adding to the unknown project id "99" leaves the demo state as it is. -/
theorem add_expense_unknown_project_unchanged_witness :
    (∀ p ∈ initialState.projects, p.id ≠ "99") ∧
      expenseReducer 1700000000000 initialState
        (.ADD_EXPENSE ⟨10, "x", "2024-01-01", "99"⟩) = initialState :=
  ⟨by decide,
   add_expense_unknown_project_unchanged 1700000000000 initialState
     ⟨10, "x", "2024-01-01", "99"⟩ (by decide)⟩

/-- C3, as the code has it: `ADD_EXPENSE` never signals an error. Whatever the projectId,
the caller gets a normal return carrying the reducer's next state, and that state equals
the input state exactly when the projectId matches no project (a silent no-op); it differs
from the input state exactly when some project has that id. -/
theorem add_expense_never_signals (now : ℕ) (state : ExpenseState) (payload : ExpensePayload) :
    dispatchOutcome now state (.ADD_EXPENSE payload)
        = .ok (expenseReducer now state (.ADD_EXPENSE payload)) ∧
      (expenseReducer now state (.ADD_EXPENSE payload) = state ↔
        ∀ p ∈ state.projects, p.id ≠ payload.projectId) := by
  refine ⟨rfl, ?_⟩
  cases state with
  | mk projects =>
    simp only [expenseReducer, ExpenseState.mk.injEq]
    rw [map_ite_eq_self_iff]
    constructor
    · intro h p hp hid
      have hlen := congrArg (fun q : Project => q.expenses.length) (h p hp (by simpa using hid))
      simp at hlen
    · intro h p hp hid
      exact absurd (by simpa using hid) (h p hp)

/-- Counterexample to C3 as stated: on the demo state an `ADD_EXPENSE` for the unknown
project id "99" does not end in an error; the caller gets a normal return carrying the
unchanged demo state, the same kind of outcome a successful add produces. -/
theorem add_expense_unknown_project_is_no_error :
    dispatchOutcome 1700000000000 initialState (.ADD_EXPENSE ⟨10, "x", "2024-01-01", "99"⟩)
        = .ok initialState ∧
      (∀ p ∈ initialState.projects, p.id ≠ "99") ∧
      ¬ ∃ err, dispatchOutcome 1700000000000 initialState
          (.ADD_EXPENSE ⟨10, "x", "2024-01-01", "99"⟩) = .error err := by
  refine ⟨?_, by decide, ?_⟩
  · simp only [dispatchOutcome, Except.ok.injEq]
    exact add_expense_no_match 1700000000000 initialState _ (by decide)
  · rintro ⟨err, h⟩
    simp [dispatchOutcome] at h

/-- C4: `ADD_EXPENSE` turns each project whose id is the payload's projectId (the project
`p` stored at any position `i`) into the same project with the old expense list followed by
exactly one new expense carrying the payload's amount, description, date and projectId, and
with `totalSpent` raised by the payload's amount. -/
theorem add_expense_updates_matching (now : ℕ) (state : ExpenseState)
    (payload : ExpensePayload) (i : ℕ) (p : Project)
    (hp : state.projects[i]? = some p) (hid : p.id = payload.projectId) :
    ∃ e : Expense,
      e.amount = payload.amount ∧ e.description = payload.description ∧
      e.date = payload.date ∧ e.projectId = payload.projectId ∧
      (expenseReducer now state (.ADD_EXPENSE payload)).projects[i]? =
        some { p with
                expenses := p.expenses ++ [e]
                totalSpent := p.totalSpent + payload.amount } := by
  refine ⟨newExpense now payload, rfl, rfl, rfl, rfl, ?_⟩
  simp [expenseReducer, List.getElem?_map, hp, hid]

/-- Witness for C4: an add of 10 to demo project "1", which sits at position 0. -/
theorem add_expense_updates_matching_witness :
    ∃ e : Expense,
      e.amount = 10 ∧ e.description = "x" ∧ e.date = "2024-03-01" ∧ e.projectId = "1" ∧
      (expenseReducer 1700000000000 initialState
          (.ADD_EXPENSE ⟨10, "x", "2024-03-01", "1"⟩)).projects[0]? =
        some { id := "1"
               name := "Website Redesign"
               description := "Complete overhaul of company website with modern design"
               expenses :=
                 [ { id := "1", amount := 2500, description := "UI/UX Design Services",
                     date := "2024-01-15", projectId := "1" },
                   { id := "2", amount := 750, description := "Stock Photography License",
                     date := "2024-01-20", projectId := "1" },
                   { id := "3", amount := 1000, description := "Development Tools & Software",
                     date := "2024-01-25", projectId := "1" } ] ++ [e]
               totalSpent := 4250 + 10 } :=
  add_expense_updates_matching 1700000000000 initialState ⟨10, "x", "2024-03-01", "1"⟩ 0
    _ rfl rfl

/-! ## DELETE_EXPENSE -/

/-- C7: `DELETE_EXPENSE` is a silent no-op when the pair is not found, that is when no
project has the projectId, or projects have it but none of their expenses has the
expenseId: the caller gets a normal return carrying a state equal to the input state. -/
theorem delete_expense_not_found_noop (now : ℕ) (state : ExpenseState)
    (projectId expenseId : String)
    (h : (∀ p ∈ state.projects, p.id ≠ projectId) ∨
      ((∃ p ∈ state.projects, p.id = projectId) ∧
        ∀ p ∈ state.projects, p.id = projectId → ∀ x ∈ p.expenses, x.id ≠ expenseId)) :
    dispatchOutcome now state (.DELETE_EXPENSE projectId expenseId) = .ok state := by
  have hno : ∀ p ∈ state.projects, p.id = projectId → ∀ x ∈ p.expenses, x.id ≠ expenseId := by
    rcases h with h | h
    · exact fun p hp hid => absurd hid (h p hp)
    · exact h.2
  cases state with
  | mk projects =>
    simp only [dispatchOutcome, expenseReducer, Except.ok.injEq, ExpenseState.mk.injEq]
    rw [map_ite_eq_self_iff]
    intro p hp hid
    have hx := hno p hp (by simpa using hid)
    have hfilter : (p.expenses.filter fun expense => expense.id != expenseId) = p.expenses :=
      List.filter_eq_self.mpr fun x hxm => by simpa using hx x hxm
    have hfind : (p.expenses.find? fun e => e.id == expenseId) = none :=
      List.find?_eq_none.mpr fun x hxm => by simpa using hx x hxm
    rw [hfilter, hfind]
    simp [amountOrZero]

/-- Witness for C7: demo project "1" exists and holds no expense with id "99". -/
theorem delete_expense_not_found_noop_witness :
    ((∃ p ∈ initialState.projects, p.id = "1") ∧
        ∀ p ∈ initialState.projects, p.id = "1" → ∀ x ∈ p.expenses, x.id ≠ "99") ∧
      dispatchOutcome 1700000000000 initialState (.DELETE_EXPENSE "1" "99")
        = .ok initialState :=
  ⟨by decide,
   delete_expense_not_found_noop 1700000000000 initialState "1" "99" (Or.inr (by decide))⟩

/-- C8: in the state `DELETE_EXPENSE` returns, no project with the given projectId has an
expense with the given expenseId in its expense list. -/
theorem delete_expense_id_absent (now : ℕ) (state : ExpenseState)
    (projectId expenseId : String) :
    ∀ p ∈ (expenseReducer now state (.DELETE_EXPENSE projectId expenseId)).projects,
      p.id = projectId → ∀ x ∈ p.expenses, x.id ≠ expenseId := by
  intro p hp hid x hx
  simp only [expenseReducer, List.mem_map] at hp
  obtain ⟨q, -, rfl⟩ := hp
  by_cases hq : q.id = projectId
  · simp only [hq, beq_self_eq_true, if_true, List.mem_filter] at hx
    simpa using hx.2
  · have hq2 : (q.id == projectId) = false := by simpa using hq
    simp only [hq2] at hid
    exact absurd hid hq

/-- Witness for C8: after deleting expense "2" of demo project "1", the state holds the
project with id "1" shown here, and it no longer lists an expense with id "2". -/
theorem delete_expense_id_absent_witness :
    ({ id := "1"
       name := "Website Redesign"
       description := "Complete overhaul of company website with modern design"
       totalSpent := 4250 - 750
       expenses :=
         [ { id := "1", amount := 2500, description := "UI/UX Design Services",
             date := "2024-01-15", projectId := "1" },
           { id := "3", amount := 1000, description := "Development Tools & Software",
             date := "2024-01-25", projectId := "1" } ] } : Project) ∈
        (expenseReducer 1700000000000 initialState (.DELETE_EXPENSE "1" "2")).projects ∧
      ∀ x ∈ ({ id := "1"
               name := "Website Redesign"
               description := "Complete overhaul of company website with modern design"
               totalSpent := 4250 - 750
               expenses :=
                 [ { id := "1", amount := 2500, description := "UI/UX Design Services",
                     date := "2024-01-15", projectId := "1" },
                   { id := "3", amount := 1000, description := "Development Tools & Software",
                     date := "2024-01-25", projectId := "1" } ] } : Project).expenses,
        x.id ≠ "2" :=
  have hmem : _ ∈ (expenseReducer 1700000000000 initialState
      (.DELETE_EXPENSE "1" "2")).projects := by
    simp [expenseReducer, initialState, amountOrZero]
  ⟨hmem, delete_expense_id_absent 1700000000000 initialState "1" "2" _ hmem rfl⟩

/-- An expense list in which exactly one entry has a given id splits around that entry. -/
theorem exists_split_of_count_one (es : List Expense) (expenseId : String)
    (h : (es.map fun x => x.id).count expenseId = 1) :
    ∃ (l₁ : List Expense) (x : Expense) (l₂ : List Expense),
      es = l₁ ++ x :: l₂ ∧ x.id = expenseId ∧
      (∀ y ∈ l₁, y.id ≠ expenseId) ∧ (∀ y ∈ l₂, y.id ≠ expenseId) := by
  induction es with
  | nil => simp at h
  | cons a t ih =>
    by_cases ha : a.id = expenseId
    · refine ⟨[], a, t, rfl, ha, by simp, ?_⟩
      simp only [List.map_cons, ha, List.count_cons_self, Nat.add_eq_right] at h
      intro y hy hyid
      exact List.count_eq_zero.mp h (List.mem_map.mpr ⟨y, hy, hyid⟩)
    · simp only [List.map_cons, List.count_cons, beq_iff_eq, ha, if_false, Nat.add_zero] at h
      obtain ⟨l₁, x, l₂, ht, hx, h1, h2⟩ := ih h
      refine ⟨a :: l₁, x, l₂, by simp [ht], hx, ?_, h2⟩
      intro y hy
      rcases List.mem_cons.mp hy with rfl | hy
      · exact ha
      · exact h1 y hy

/-- The falsy fallback of `found?.amount || 0` never changes the value of a found amount. -/
theorem amountOrZero_some (x : Expense) : amountOrZero (some x) = x.amount := by
  simp only [amountOrZero]
  split_ifs with h
  · exact h.symm
  · rfl

/-- C6, as the code has it: when the project `p` with the given projectId (stored at any
position `i`) holds exactly one expense with the given expenseId, `DELETE_EXPENSE` removes
exactly that entry, keeps every other entry in order (so the length drops by exactly 1), and
lowers `totalSpent` by exactly the removed entry's amount. -/
theorem delete_expense_removes_single (now : ℕ) (state : ExpenseState)
    (projectId expenseId : String) (i : ℕ) (p : Project)
    (hp : state.projects[i]? = some p) (hid : p.id = projectId)
    (hone : (p.expenses.map fun x => x.id).count expenseId = 1) :
    ∃ (l₁ : List Expense) (x : Expense) (l₂ : List Expense),
      p.expenses = l₁ ++ x :: l₂ ∧ x.id = expenseId ∧
      (l₁ ++ l₂).length + 1 = p.expenses.length ∧
      (expenseReducer now state (.DELETE_EXPENSE projectId expenseId)).projects[i]? =
        some { p with
                expenses := l₁ ++ l₂
                totalSpent := p.totalSpent - x.amount } := by
  obtain ⟨l₁, x, l₂, hsplit, hx, h1, h2⟩ := exists_split_of_count_one p.expenses expenseId hone
  refine ⟨l₁, x, l₂, hsplit, hx, by simp [hsplit, Nat.add_assoc], ?_⟩
  have hf1 : (l₁.filter fun expense => expense.id != expenseId) = l₁ :=
    List.filter_eq_self.mpr fun y hy => by simpa using h1 y hy
  have hf2 : (l₂.filter fun expense => expense.id != expenseId) = l₂ :=
    List.filter_eq_self.mpr fun y hy => by simpa using h2 y hy
  have hfilter : (p.expenses.filter fun expense => expense.id != expenseId) = l₁ ++ l₂ := by
    rw [hsplit, List.filter_append, List.filter_cons, hf1, hf2]
    simp [hx]
  have hfind : (p.expenses.find? fun e => e.id == expenseId) = some x := by
    rw [hsplit, List.find?_append]
    have hnone : (l₁.find? fun e => e.id == expenseId) = none :=
      List.find?_eq_none.mpr fun y hy => by simpa using h1 y hy
    simp [hnone, hx]
  simp [expenseReducer, List.getElem?_map, hp, hid, hfilter, hfind, amountOrZero_some]

/-- Witness for C6: demo project "1" (position 0) holds exactly one expense with id "2";
deleting it leaves the entries "1" and "3" in order and a total of 4250 - 750. -/
theorem delete_expense_removes_single_witness :
    ∃ (l₁ : List Expense) (x : Expense) (l₂ : List Expense),
      [ ({ id := "1", amount := 2500, description := "UI/UX Design Services",
           date := "2024-01-15", projectId := "1" } : Expense),
        { id := "2", amount := 750, description := "Stock Photography License",
          date := "2024-01-20", projectId := "1" },
        { id := "3", amount := 1000, description := "Development Tools & Software",
          date := "2024-01-25", projectId := "1" } ] = l₁ ++ x :: l₂ ∧
      x.id = "2" ∧
      (l₁ ++ l₂).length + 1 = 3 ∧
      (expenseReducer 1700000000000 initialState (.DELETE_EXPENSE "1" "2")).projects[0]? =
        some { id := "1"
               name := "Website Redesign"
               description := "Complete overhaul of company website with modern design"
               expenses := l₁ ++ l₂
               totalSpent := 4250 - x.amount } :=
  delete_expense_removes_single 1700000000000 initialState "1" "2" 0 _ rfl rfl (by decide)

/-- Counterexample to C6 as stated: after two adds to demo project "1" within the same
millisecond, the project holds two expenses with the id "1700000000000" (amounts 10 and
20); one `DELETE_EXPENSE` of that id removes both entries, so the list shrinks from 5 to 3,
while `totalSpent` drops by 10 only, from 4280 to 4270. -/
theorem delete_expense_removes_two :
    ledger (run initialState collidingAdds) =
        [ ("1", 4280, [("1", 2500), ("2", 750), ("3", 1000),
            ("1700000000000", 10), ("1700000000000", 20)]),
          ("2", 3751 / 2, [("4", 1200), ("5", 1351 / 2)]) ] ∧
      ledger (expenseReducer 1700000000005 (run initialState collidingAdds)
          (.DELETE_EXPENSE "1" "1700000000000")) =
        [ ("1", 4270, [("1", 2500), ("2", 750), ("3", 1000)]),
          ("2", 3751 / 2, [("4", 1200), ("5", 1351 / 2)]) ] := by
  decide!

/-! ## DELETE_PROJECT -/

/-- C9: after `DELETE_PROJECT` no project with the given id remains; the expense entries
that were nested in the deleted projects are gone from the store (every surviving project
is an old project with another id, and the old store's entries are exactly the surviving
entries together with those of the deleted projects); and the projects with a different id
are exactly the old ones, unchanged and in their original relative order. -/
theorem delete_project_removes (now : ℕ) (state : ExpenseState) (projectId : String) :
    (∀ p ∈ (expenseReducer now state (.DELETE_PROJECT projectId)).projects,
        p.id ≠ projectId ∧ p ∈ state.projects) ∧
      (allExpenses state).Perm
        (allExpenses (expenseReducer now state (.DELETE_PROJECT projectId)) ++
          (state.projects.filter fun p => p.id == projectId).flatMap fun p => p.expenses) ∧
      ((expenseReducer now state (.DELETE_PROJECT projectId)).projects.filter
          fun p => p.id != projectId) =
        state.projects.filter fun p => p.id != projectId := by
  refine ⟨?_, ?_, ?_⟩
  · intro p hp
    simp only [expenseReducer, List.mem_filter] at hp
    exact ⟨by simpa using hp.2, hp.1⟩
  · simp only [allExpenses, expenseReducer, ← List.flatMap_append]
    refine List.Perm.flatMap_right _ ?_
    have hsplit := List.filter_append_perm (fun p : Project => p.id == projectId) state.projects
    have hneg : (fun p : Project => p.id != projectId) = fun p => !(p.id == projectId) := rfl
    rw [hneg]
    exact (List.perm_append_comm.trans hsplit).symm
  · simp [expenseReducer, List.filter_filter]

/-- C10: `DELETE_PROJECT` with an id that is the id of no project of the state is a silent
no-op: the caller gets a normal return carrying a state equal to the input state. -/
theorem delete_project_unknown_noop (now : ℕ) (state : ExpenseState) (projectId : String)
    (h : ∀ p ∈ state.projects, p.id ≠ projectId) :
    dispatchOutcome now state (.DELETE_PROJECT projectId) = .ok state := by
  cases state with
  | mk projects =>
    simp only [dispatchOutcome, expenseReducer, Except.ok.injEq, ExpenseState.mk.injEq]
    exact List.filter_eq_self.mpr fun p hp => by simpa using h p hp

/-- Witness for C10: the demo state has no project with id "99". -/
theorem delete_project_unknown_noop_witness :
    (∀ p ∈ initialState.projects, p.id ≠ "99") ∧
      dispatchOutcome 1700000000000 initialState (.DELETE_PROJECT "99") = .ok initialState :=
  ⟨by decide, delete_project_unknown_noop 1700000000000 initialState "99" (by decide)⟩

/-! ## Double arithmetic -/

/-- Known values of the rounding: 0.1 is the double 3602879701896397 / 2^55, the sum
0.1 + 0.2 is 0.30000000000000004, whole numbers and halves are kept, 2^53 + 1 is a tie that
goes to the even neighbour 2^53, and half of the smallest subnormal goes to 0. -/
theorem roundDouble_examples :
    roundDouble (1 / 10) = 3602879701896397 / 36028797018963968 ∧
      jsAdd (roundDouble (1 / 10)) (roundDouble (2 / 10)) =
        5404319552844596 / 18014398509481984 ∧
      roundDouble 4370 = 4370 ∧ roundDouble (3751 / 2) = 3751 / 2 ∧
      roundDouble (9007199254740993) = 9007199254740992 ∧
      roundDouble (pow2 (-1074)) = pow2 (-1074) ∧ roundDouble (pow2 (-1075)) = 0 := by
  decide!

/-! ## The running total along sequences of actions -/

/-- Inside a list that holds at most one expense with a given id, filtering out that id
lowers the sum of amounts by the amount `find` reports for it. -/
theorem sumAmounts_filter_of_count_le_one (es : List Expense) (expenseId : String)
    (h : (es.map fun x => x.id).count expenseId ≤ 1) :
    sumAmounts (es.filter fun expense => expense.id != expenseId) =
      sumAmounts es - amountOrZero (es.find? fun e => e.id == expenseId) := by
  induction es with
  | nil => simp [sumAmounts, amountOrZero]
  | cons a t ih =>
    by_cases ha : a.id = expenseId
    · simp only [List.map_cons, ha, List.count_cons_self] at h
      have hzero : (t.map fun x => x.id).count expenseId = 0 := by omega
      have hnot : ∀ y ∈ t, y.id ≠ expenseId := fun y hy hyid =>
        List.count_eq_zero.mp hzero (List.mem_map.mpr ⟨y, hy, hyid⟩)
      have hfilter : (t.filter fun expense => expense.id != expenseId) = t :=
        List.filter_eq_self.mpr fun y hy => by simpa using hnot y hy
      simp [List.filter_cons, List.find?_cons, ha, hfilter, amountOrZero_some, sumAmounts]
    · have hne : (a.id == expenseId) = false := by simpa using ha
      simp only [List.map_cons, List.count_cons, hne] at h
      simp only [List.filter_cons, List.find?_cons, bne, hne, Bool.not_false, if_true]
      have := ih (by simpa using h)
      simp only [bne, sumAmounts, List.map_cons, List.sum_cons] at this ⊢
      rw [this]; ring

/-- In exact arithmetic each reducer step keeps the totals reconciled, provided a
`DELETE_EXPENSE` finds at most one expense. -/
theorem totalsReconciled_step (now : ℕ) (state : ExpenseState) (action : ExpenseAction)
    (hinv : TotalsReconciled state) (hsingle : SingleDelete state action) :
    TotalsReconciled (expenseReducer now state action) := by
  intro p hp
  cases action with
  | ADD_PROJECT payload =>
    simp only [expenseReducer, List.mem_append, List.mem_singleton] at hp
    rcases hp with hp | rfl
    · exact hinv p hp
    · simp [newProject, sumAmounts]
  | ADD_EXPENSE payload =>
    simp only [expenseReducer, List.mem_map] at hp
    obtain ⟨q, hq, rfl⟩ := hp
    by_cases hid : q.id = payload.projectId
    · simp [hid, sumAmounts, hinv q hq, newExpense]
    · have hne : (q.id == payload.projectId) = false := by simpa using hid
      simpa [hne] using hinv q hq
  | DELETE_PROJECT payload =>
    simp only [expenseReducer, List.mem_filter] at hp
    exact hinv p hp.1
  | DELETE_EXPENSE projectId expenseId =>
    simp only [expenseReducer, List.mem_map] at hp
    obtain ⟨q, hq, rfl⟩ := hp
    by_cases hid : q.id = projectId
    · simp only [hid, beq_self_eq_true, if_true]
      rw [sumAmounts_filter_of_count_le_one q.expenses expenseId (hsingle q hq hid), hinv q hq]
    · have hne : (q.id == projectId) = false := by simpa using hid
      simpa [hne] using hinv q hq

/-- Where the operation of a step is exact, the reducer over doubles returns what the
reducer in exact arithmetic returns. -/
theorem ieee_step_eq_of_exact (now : ℕ) (state : ExpenseState) (action : ExpenseAction)
    (hexact : ExactStep state action) :
    Ieee.expenseReducer now state action = expenseReducer now state action := by
  cases action with
  | ADD_PROJECT payload => rfl
  | ADD_EXPENSE payload =>
    simp only [Ieee.expenseReducer, expenseReducer, ExpenseState.mk.injEq]
    refine List.map_congr_left fun q hq => ?_
    by_cases hid : q.id = payload.projectId
    · simp [hid, jsAdd, (hexact q hq hid).1]
    · have hne : (q.id == payload.projectId) = false := by simpa using hid
      simp [hne]
  | DELETE_PROJECT payload => rfl
  | DELETE_EXPENSE projectId expenseId =>
    simp only [Ieee.expenseReducer, expenseReducer, ExpenseState.mk.injEq]
    refine List.map_congr_left fun q hq => ?_
    by_cases hid : q.id = projectId
    · simp [hid, jsSub, (hexact q hq hid).1]
    · have hne : (q.id == projectId) = false := by simpa using hid
      simp [hne]

/-- The totals of the demo state are reconciled. -/
theorem totalsReconciled_initialState : TotalsReconciled initialState := by
  decide!

/-- Sound runs keep the totals reconciled in the arithmetic of the source. -/
theorem totalsReconciled_run (steps : List (ℕ × ExpenseAction)) :
    ∀ state : ExpenseState, TotalsReconciled state → SoundRun state steps →
      TotalsReconciled (Ieee.run state steps) := by
  induction steps with
  | nil => intro state hinv _; exact hinv
  | cons step rest ih =>
    intro state hinv hsound
    obtain ⟨now, action⟩ := step
    obtain ⟨hexact, hsingle, hrest⟩ := hsound
    refine ih _ ?_ hrest
    rw [ieee_step_eq_of_exact now state action hexact]
    exact totalsReconciled_step now state action hinv hsingle

/-- C1, as the code has it: in every state reached from the demo state by a sequence of the
four actions, with any clock readings, in which every `DELETE_EXPENSE` finds at most one
expense with its id in each project it targets and every addition or subtraction the reducer
performs on a `totalSpent` is exact in double arithmetic, every project's `totalSpent` equals
the sum of the amounts of the expenses in its list, taken as exact decimals. -/
theorem totals_reconciled_of_sound_run (steps : List (ℕ × ExpenseAction))
    (hsound : SoundRun initialState steps) :
    TotalsReconciled (Ieee.run initialState steps) :=
  totalsReconciled_run steps initialState totalsReconciled_initialState hsound

/-- Witness for C1: a run with two adds in the same millisecond, the deletion of another
expense, a new project and the deletion of a project is sound, and the totals are reconciled
in the state it reaches. -/
theorem totals_reconciled_of_sound_run_witness :
    SoundRun initialState sampleSoundSteps ∧
      TotalsReconciled (Ieee.run initialState sampleSoundSteps) :=
  ⟨by decide!, totals_reconciled_of_sound_run sampleSoundSteps (by decide!)⟩

/-- Counterexample to C1 as stated, in the arithmetic of the source. First, two adds to demo
project "1" within the same millisecond followed by one delete of the shared id leave a
`totalSpent` of 4270 for expenses that sum to 4250. Second, with fresh ids throughout, adding
0.1, 0.2 and 0.3 to a new project and deleting the first leaves a `totalSpent` of
0.5000000000000001 for expenses that sum to 0.5. -/
theorem totals_not_reconciled_on_doubles :
    ¬ TotalsReconciled (Ieee.run initialState collidingAddsThenDelete) ∧
      ledger (Ieee.run initialState collidingAddsThenDelete) =
        [ ("1", 4270, [("1", 2500), ("2", 750), ("3", 1000)]),
          ("2", 3751 / 2, [("4", 1200), ("5", 1351 / 2)]) ] ∧
      UnusedIdRun initialState driftSteps ∧
      ¬ TotalsReconciled (Ieee.run initialState driftSteps) ∧
      ((Ieee.run initialState driftSteps).projects.map fun p =>
          (p.id, p.totalSpent, sumAmounts p.expenses)) =
        [ ("1", 4250, 4250), ("2", 3751 / 2, 3751 / 2),
          ("1700000000000", 4503599627370497 / 9007199254740992, 1 / 2) ] := by
  decide!

/-! ## Identifiers -/

/-- Reading back the digits `Nat.toDigitsCore` produces gives the number they were made of. -/
theorem foldl_toDigitsCore (fuel : ℕ) : ∀ (n : ℕ) (ds : List Char), n < fuel →
    (Nat.toDigitsCore 10 fuel n ds).foldl (fun acc c => acc * 10 + (c.toNat - 48)) 0 =
      ds.foldl (fun acc c => acc * 10 + (c.toNat - 48)) n := by
  induction fuel with
  | zero => intro n ds h; omega
  | succ fuel ih =>
    intro n ds h
    have hd : (Nat.digitChar (n % 10)).toNat - 48 = n % 10 := by
      have hlt : n % 10 < 10 := Nat.mod_lt _ (by decide)
      interval_cases (n % 10) <;> rfl
    simp only [Nat.toDigitsCore]
    split_ifs with h0
    · simp only [List.foldl_cons, hd]
      congr 1
      omega
    · rw [ih (n / 10) _ (by omega)]
      simp only [List.foldl_cons, hd]
      congr 1
      omega

/-- The decimal string of a clock reading reads back as that reading. -/
theorem decodeNat_toString (n : ℕ) : decodeNat (toString n) = n := by
  show (Nat.toDigitsCore 10 (n + 1) n []).foldl _ 0 = n
  rw [foldl_toDigitsCore (n + 1) n [] (by omega)]
  rfl

/-- `Date.now().toString()` gives different strings for different readings. -/
theorem toString_nat_injective : Function.Injective (toString : ℕ → String) := by
  intro a b h
  have := congrArg decodeNat h
  rwa [decodeNat_toString, decodeNat_toString] at this

/-- Consecutive `ADD_PROJECT` dispatches append one new project per dispatch, in order. -/
theorem run_addProjects (steps : List (ℕ × ProjectPayload)) : ∀ state : ExpenseState,
    (run state (addProjects steps)).projects =
      state.projects ++ steps.map fun step => newProject step.1 step.2 := by
  induction steps with
  | nil => intro state; simp [addProjects, run]
  | cons step rest ih =>
    intro state
    have hrest := ih (expenseReducer step.1 state (.ADD_PROJECT step.2))
    show (run (expenseReducer step.1 state (.ADD_PROJECT step.2)) (addProjects rest)).projects = _
    rw [hrest]
    simp [expenseReducer]

/-- C11, as the code has it: the identifiers assigned by N consecutive `ADD_PROJECT` actions
are the decimal strings of the N clock readings taken while they run, so they are pairwise
distinct exactly when those N clock readings are pairwise distinct. -/
theorem assigned_project_ids_distinct_iff (state : ExpenseState)
    (steps : List (ℕ × ProjectPayload)) :
    assignedProjectIds state steps = steps.map (fun step => toString step.1) ∧
      ((assignedProjectIds state steps).Nodup ↔ (steps.map fun step => step.1).Nodup) := by
  have hids : assignedProjectIds state steps = steps.map (fun step => toString step.1) := by
    simp [assignedProjectIds, run_addProjects, newProject]
  refine ⟨hids, ?_⟩
  rw [hids]
  have hmap : steps.map (fun step => toString step.1) =
      (steps.map fun step => step.1).map toString := by simp
  rw [hmap, List.nodup_map_iff toString_nat_injective]

/-- Counterexample to C11 as stated: two `ADD_PROJECT` actions handled within the same
millisecond give both new projects the id "1700000000000". -/
theorem assigned_project_ids_collide :
    assignedProjectIds initialState
        [ (1700000000000, ⟨"Office Move", "Relocation of the design team"⟩),
          (1700000000000, ⟨"Trade Fair", "Booth at the spring trade fair"⟩) ] =
      ["1700000000000", "1700000000000"] ∧
    ¬ (assignedProjectIds initialState
        [ (1700000000000, ⟨"Office Move", "Relocation of the design team"⟩),
          (1700000000000, ⟨"Trade Fair", "Booth at the spring trade fair"⟩) ]).Nodup := by
  decide

/-! ## Ownership of expenses -/

/-- Each reducer step keeps every expense under a project whose id it carries. -/
theorem ownersConsistent_step (now : ℕ) (state : ExpenseState) (action : ExpenseAction)
    (h : OwnersConsistent state) : OwnersConsistent (expenseReducer now state action) := by
  intro p hp x hx
  cases action with
  | ADD_PROJECT payload =>
    simp only [expenseReducer, List.mem_append, List.mem_singleton] at hp
    rcases hp with hp | rfl
    · exact h p hp x hx
    · simp [newProject] at hx
  | ADD_EXPENSE payload =>
    simp only [expenseReducer, List.mem_map] at hp
    obtain ⟨q, hq, rfl⟩ := hp
    by_cases hid : q.id = payload.projectId
    · simp only [hid, beq_self_eq_true, if_true, List.mem_append, List.mem_singleton] at hx ⊢
      rcases hx with hx | rfl
      · exact (h q hq x hx).trans hid
      · rfl
    · have hne : (q.id == payload.projectId) = false := by simpa using hid
      simp only [hne] at hx ⊢
      exact h q hq x hx
  | DELETE_PROJECT payload =>
    simp only [expenseReducer, List.mem_filter] at hp
    exact h p hp.1 x hx
  | DELETE_EXPENSE projectId expenseId =>
    simp only [expenseReducer, List.mem_map] at hp
    obtain ⟨q, hq, rfl⟩ := hp
    by_cases hid : q.id = projectId
    · simp only [hid, beq_self_eq_true, if_true, List.mem_filter] at hx ⊢
      exact (h q hq x hx.1).trans hid
    · have hne : (q.id == projectId) = false := by simpa using hid
      simp only [hne] at hx ⊢
      exact h q hq x hx

/-- Runs keep every expense under a project whose id it carries. -/
theorem ownersConsistent_run (steps : List (ℕ × ExpenseAction)) :
    ∀ state : ExpenseState, OwnersConsistent state → OwnersConsistent (run state steps) := by
  induction steps with
  | nil => intro state h; exact h
  | cons step rest ih =>
    intro state h
    exact ih _ (ownersConsistent_step step.1 state step.2 h)

/-- In the demo state every expense carries the id of its project. -/
theorem ownersConsistent_initialState : OwnersConsistent initialState := by
  intro p hp x hx
  simp only [initialState, List.mem_cons, List.mem_singleton, List.not_mem_nil, or_false] at hp
  rcases hp with rfl | rfl <;>
    simp only [List.mem_cons, List.mem_singleton, List.not_mem_nil, or_false] at hx <;>
    rcases hx with rfl | rfl | rfl <;> rfl

/-- C13: in every state reached from the demo state by any sequence of the four actions,
with any clock readings, every expense stored in a project's expense list has a projectId
equal to the id of the project that holds it, so every stored expense references a project
that exists in the state. -/
theorem expenses_reference_their_project (steps : List (ℕ × ExpenseAction)) :
    OwnersConsistent (run initialState steps) ∧ ReferencesExist (run initialState steps) := by
  have hown := ownersConsistent_run steps initialState ownersConsistent_initialState
  refine ⟨hown, ?_⟩
  intro x hx
  simp only [allExpenses, List.mem_flatMap] at hx
  obtain ⟨p, hp, hxp⟩ := hx
  exact ⟨p, hp, (hown p hp x hxp).symm⟩

/-! ## The example scenario -/

/-- C14: from any state and with any clock readings, `ADD_PROJECT` of "Website Redesign"
followed by adds of 2500.00 and of 750.00 against the new project's id leaves the new
project (the last of the list) with `totalSpent` 3250.00 and the two expenses in insertion
order, amounts 2500.00 then 750.00; after the first add alone its `totalSpent` is 2500.00. -/
theorem scenario_totals (state : ExpenseState) (t0 t1 t2 : ℕ) :
    ∃ e1 e2 : Expense,
      e1.amount = 2500 ∧ e2.amount = 750 ∧
      (run state ((scenarioSteps t0 t1 t2).take 2)).projects.getLast? =
        some { id := toString t0, name := "Website Redesign", description := "Revamp"
               totalSpent := 2500, expenses := [e1] } ∧
      (run state (scenarioSteps t0 t1 t2)).projects.getLast? =
        some { id := toString t0, name := "Website Redesign", description := "Revamp"
               totalSpent := 3250, expenses := [e1, e2] } := by
  refine ⟨newExpense t1 ⟨2500, "UI/UX Design", "2024-01-15", toString t0⟩,
    newExpense t2 ⟨750, "Stock Photos", "2024-01-20", toString t0⟩, rfl, rfl, ?_, ?_⟩
  · simp [scenarioSteps, run, expenseReducer, newProject, List.getLast?_map]
  · simp [scenarioSteps, run, expenseReducer, newProject, List.getLast?_map]
    norm_num

/-- C15, as the code has it: when the two adds of the scenario read different clock values,
`DELETE_EXPENSE` with the new project's id and the id given to the first expense leaves the
new project with `totalSpent` 750.00 and an expense list of length 1, holding the 750.00
expense. -/
theorem scenario_delete_first (state : ExpenseState) (t0 t1 t2 t3 : ℕ) (h : t1 ≠ t2) :
    ∃ e2 : Expense,
      e2.amount = 750 ∧
      (run state (scenarioThenDelete t0 t1 t2 t3)).projects.getLast? =
        some { id := toString t0, name := "Website Redesign", description := "Revamp"
               totalSpent := 750, expenses := [e2] } := by
  refine ⟨newExpense t2 ⟨750, "Stock Photos", "2024-01-20", toString t0⟩, rfl, ?_⟩
  have hne : toString t2 ≠ toString t1 := fun heq => h (toString_nat_injective heq).symm
  simp [scenarioThenDelete, scenarioSteps, run, expenseReducer, newProject, newExpense,
    List.getLast?_map, List.filter_cons, List.find?_cons, hne, amountOrZero]

/-- Witness for C15: the scenario with four distinct clock readings, run on the demo state. -/
theorem scenario_delete_first_witness :
    (1700000000001 : ℕ) ≠ 1700000000002 ∧
    ∃ e2 : Expense,
      e2.amount = 750 ∧
      (run initialState (scenarioThenDelete 1700000000000 1700000000001 1700000000002
          1700000000003)).projects.getLast? =
        some { id := toString 1700000000000, name := "Website Redesign"
               description := "Revamp", totalSpent := 750, expenses := [e2] } :=
  ⟨by decide,
   scenario_delete_first initialState 1700000000000 1700000000001 1700000000002
     1700000000003 (by decide)⟩

/-- Counterexample to C15 as stated: when both adds of the scenario are handled within the
same millisecond they share the id "1700000000001"; deleting that id empties the new
project's expense list (length 0, not 1) and leaves its `totalSpent` at 750. -/
theorem scenario_delete_first_collision :
    ledger (run initialState
        (scenarioThenDelete 1700000000000 1700000000001 1700000000001 1700000000003)) =
      [ ("1", 4250, [("1", 2500), ("2", 750), ("3", 1000)]),
        ("2", 3751 / 2, [("4", 1200), ("5", 1351 / 2)]),
        ("1700000000000", 750, []) ] := by
  decide!

/-! ## Uniqueness of identifiers -/

/-- With pairwise distinct project ids, `ADD_EXPENSE` puts at most one new entry into the
store: the entries afterwards are the old ones plus at most one copy of the new expense. -/
theorem allExpenses_add_perm (e : Expense) (projectId : String) (l : List Project)
    (hnd : (l.map fun p => p.id).Nodup) :
    ∃ k, k ≤ 1 ∧
      ((l.map fun project =>
          if project.id == projectId then
            { project with
              expenses := project.expenses ++ [e]
              totalSpent := project.totalSpent + e.amount }
          else project).flatMap fun p => p.expenses).Perm
        (List.replicate k e ++ l.flatMap fun p => p.expenses) := by
  induction l with
  | nil => exact ⟨0, by omega, by simp⟩
  | cons q t ih =>
    rw [List.map_cons, List.nodup_cons] at hnd
    by_cases hid : q.id = projectId
    · have hnone : ∀ r ∈ t, (r.id == projectId) = false := by
        intro r hr
        have hne : r.id ≠ projectId := fun h =>
          hnd.1 (List.mem_map.mpr ⟨r, hr, h.trans hid.symm⟩)
        simpa using hne
      refine ⟨1, le_refl 1, ?_⟩
      rw [List.map_cons, map_ite_of_forall_false _ _ t hnone]
      simp only [hid, beq_self_eq_true, if_true, List.flatMap_cons, List.replicate_one,
        List.singleton_append, List.append_assoc]
      exact List.perm_middle
    · obtain ⟨k, hk, hperm⟩ := ih hnd.2
      have hne : (q.id == projectId) = false := by simpa using hid
      refine ⟨k, hk, ?_⟩
      rw [List.map_cons]
      simp only [hne, List.flatMap_cons]
      refine (List.Perm.append_left q.expenses hperm).trans ?_
      rw [← List.append_assoc, ← List.append_assoc]
      exact List.Perm.append_right _ List.perm_append_comm

/-- Rewriting projects without touching their ids keeps the list of project ids. -/
theorem map_ids_of_id_preserving (f : Project → Project) (hf : ∀ p, (f p).id = p.id)
    (l : List Project) : ((l.map f).map fun p => p.id) = l.map fun p => p.id := by
  simp [List.map_map, Function.comp_def, hf]

/-- Shrinking the expense list of each project shrinks the list of all entries. -/
theorem flatMap_sublist_of_shrinking (f : Project → Project)
    (hf : ∀ p, (f p).expenses.Sublist p.expenses) (l : List Project) :
    ((l.map f).flatMap fun p => p.expenses).Sublist (l.flatMap fun p => p.expenses) := by
  induction l with
  | nil => simp
  | cons q t ih =>
    simp only [List.map_cons, List.flatMap_cons]
    exact (hf q).append ih

/-- Dropping projects from the store drops their entries and keeps the others in order. -/
theorem flatMap_sublist_of_sublist {l₁ l₂ : List Project} (h : l₁.Sublist l₂) :
    (l₁.flatMap fun p => p.expenses).Sublist (l₂.flatMap fun p => p.expenses) := by
  induction h with
  | slnil => simp
  | cons a _ ih =>
    simp only [List.flatMap_cons]
    exact ih.trans (List.sublist_append_right _ _)
  | cons₂ a _ ih =>
    simp only [List.flatMap_cons]
    exact (List.Sublist.refl _).append ih

/-- Each step that hands out an unused id keeps all ids distinct. -/
theorem uniqueIds_step (now : ℕ) (state : ExpenseState) (action : ExpenseAction)
    (hinv : UniqueIds state) (hnew : UnusedId state now action) :
    UniqueIds (expenseReducer now state action) := by
  obtain ⟨hproj, hexp⟩ := hinv
  cases action with
  | ADD_PROJECT payload =>
    refine ⟨?_, ?_⟩
    · simp only [expenseReducer, List.map_append, List.map_cons, List.map_nil]
      refine List.Nodup.append hproj (List.nodup_singleton _) ?_
      intro a ha1 ha2
      obtain ⟨p, hp, rfl⟩ := List.mem_map.mp ha1
      exact hnew p hp (List.mem_singleton.mp ha2)
    · simpa [allExpenses, expenseReducer, newProject] using hexp
  | ADD_EXPENSE payload =>
    refine ⟨?_, ?_⟩
    · simp only [expenseReducer]
      rw [map_ids_of_id_preserving _ (fun p => by split_ifs <;> rfl)]
      exact hproj
    · obtain ⟨k, hk, hperm⟩ :=
        allExpenses_add_perm (newExpense now payload) payload.projectId state.projects hproj
      have hperm2 := hperm.map fun x : Expense => x.id
      simp only [allExpenses, expenseReducer]
      refine (List.Perm.nodup_iff hperm2).mpr ?_
      have hk2 : k = 0 ∨ k = 1 := by omega
      rcases hk2 with rfl | rfl
      · simpa [allExpenses] using hexp
      · simp only [List.replicate_one, List.singleton_append, List.map_cons, List.nodup_cons]
        refine ⟨?_, by simpa [allExpenses] using hexp⟩
        intro hmem
        obtain ⟨x, hx, hxid⟩ := List.mem_map.mp hmem
        exact hnew x (by simpa [allExpenses] using hx) hxid
  | DELETE_PROJECT payload =>
    refine ⟨?_, ?_⟩
    · exact hproj.sublist ((List.filter_sublist _).map _)
    · simp only [allExpenses, expenseReducer]
      exact hexp.sublist ((flatMap_sublist_of_sublist (List.filter_sublist _)).map _)
  | DELETE_EXPENSE projectId expenseId =>
    refine ⟨?_, ?_⟩
    · simp only [expenseReducer]
      rw [map_ids_of_id_preserving _ (fun p => by split_ifs <;> rfl)]
      exact hproj
    · simp only [allExpenses, expenseReducer]
      refine hexp.sublist (List.Sublist.map _ ?_)
      refine flatMap_sublist_of_shrinking _ (fun p => ?_) state.projects
      split_ifs
      · exact List.filter_sublist _
      · exact List.Sublist.refl _

/-- Runs whose steps all hand out unused ids keep all ids distinct. -/
theorem uniqueIds_run (steps : List (ℕ × ExpenseAction)) :
    ∀ state : ExpenseState, UniqueIds state → UnusedIdRun state steps →
      UniqueIds (run state steps) := by
  induction steps with
  | nil => intro state hinv _; exact hinv
  | cons step rest ih =>
    intro state hinv hnew
    obtain ⟨now, action⟩ := step
    exact ih _ (uniqueIds_step now state action hinv hnew.1) hnew.2

/-- C12, as the code has it: in every state reached from the demo state by a sequence of
the four actions in which each `ADD_PROJECT` reads a clock value whose string is the id of
no project of the store and each `ADD_EXPENSE` one whose string is the id of no expense of
the store, no two projects have the same id and no two expenses, within one project or
across projects, have the same id. -/
theorem unique_ids_of_unused_id_run (steps : List (ℕ × ExpenseAction))
    (hnew : UnusedIdRun initialState steps) : UniqueIds (run initialState steps) :=
  uniqueIds_run steps initialState (by decide) hnew

/-- Witness for C12: the sample run with four distinct clock readings hands out unused ids
only, and all ids are distinct in the state it reaches. -/
theorem unique_ids_of_unused_id_run_witness :
    UnusedIdRun initialState sampleFreshSteps ∧ UniqueIds (run initialState sampleFreshSteps) :=
  ⟨by decide, unique_ids_of_unused_id_run sampleFreshSteps (by decide)⟩

/-- Counterexample to C12 as stated: after two adds to demo project "1" within the same
millisecond, two expenses of the store share the id "1700000000000". -/
theorem ids_not_unique_after_collision :
    ¬ UniqueIds (run initialState collidingAdds) ∧
      ((allExpenses (run initialState collidingAdds)).map fun x => x.id) =
        ["1", "2", "3", "1700000000000", "1700000000000", "4", "5"] := by
  decide

/-! ## Form validation -/

/-- A trimmed string is empty exactly when its character list is. -/
theorem jsTrim_eq_empty_iff (text : String) :
    jsTrim text = "" ↔ (text.data.dropWhile isJsWhitespace).rdropWhile isJsWhitespace = [] := by
  constructor
  · intro h
    have := congrArg String.data h
    simpa [jsTrim] using this
  · intro h
    simp [jsTrim, h]

/-- The empty string has length 0, so a string of positive length is not empty. -/
theorem ne_empty_of_jsLength_pos (text : String) (h : 0 < jsLength text) : text ≠ "" := by
  rintro rfl
  simp [jsLength] at h

/-- A trimmed string does not start with a white space character. -/
theorem jsTrim_head_not_whitespace (text : String) (c : Char)
    (h : (jsTrim text).data.head? = some c) : isJsWhitespace c = false := by
  have hpre : ((text.data.dropWhile isJsWhitespace).rdropWhile isJsWhitespace) <+:
      text.data.dropWhile isJsWhitespace := List.rdropWhile_prefix _ _
  obtain ⟨rest, hrest⟩ := hpre
  have hhead := List.head?_dropWhile_not isJsWhitespace text.data
  simp only [jsTrim] at h
  rw [← hrest] at hhead
  cases hl : (text.data.dropWhile isJsWhitespace).rdropWhile isJsWhitespace with
  | nil => simp [hl] at h
  | cons a l =>
    rw [hl] at h hhead
    simp only [List.head?_cons, Option.some.injEq] at h
    subst h
    simpa using hhead

/-- A trimmed string does not end with a white space character. -/
theorem jsTrim_last_not_whitespace (text : String) (c : Char)
    (h : (jsTrim text).data.getLast? = some c) : isJsWhitespace c = false := by
  simp only [jsTrim] at h
  have hne : (text.data.dropWhile isJsWhitespace).rdropWhile isJsWhitespace ≠ [] := by
    intro hnil
    simp [hnil] at h
  have hlast := List.rdropWhile_last_not isJsWhitespace _ hne
  rw [List.getLast?_eq_getLast _ hne, Option.some.injEq] at h
  subst h
  simpa using hlast

/-- C18: CreateProject dispatches `ADD_PROJECT` only when `validateForm` accepts, and
`validateForm` accepts exactly when the trimmed name has at least 3 characters and the
trimmed description at least 10; the dispatched name is the trimmed name, so the project the
store appends has a non-empty name without leading or trailing white space. -/
theorem create_project_validation (formData : CreateProject.FormData) :
    (CreateProject.validateForm formData = true ↔
      3 ≤ jsLength (jsTrim formData.name) ∧ 10 ≤ jsLength (jsTrim formData.description)) ∧
    (∀ action, CreateProject.handleSubmit formData = some action →
      CreateProject.validateForm formData = true ∧
      ∃ payload : ProjectPayload,
        action = .ADD_PROJECT payload ∧ payload.name = jsTrim formData.name ∧
        payload.name ≠ "" ∧
        (∀ c, payload.name.data.head? = some c → isJsWhitespace c = false) ∧
        (∀ c, payload.name.data.getLast? = some c → isJsWhitespace c = false) ∧
        ∀ (now : ℕ) (state : ExpenseState),
          ((expenseReducer now state action).projects.getLast?.map fun p => p.name) =
            some payload.name) := by
  have hiff : CreateProject.validateForm formData = true ↔
      3 ≤ jsLength (jsTrim formData.name) ∧ 10 ≤ jsLength (jsTrim formData.description) := by
    simp only [CreateProject.validateForm, CreateProject.newErrors, Bool.and_eq_true,
      decide_eq_true_eq]
    constructor
    · rintro ⟨h1, h2⟩
      refine ⟨?_, ?_⟩
      · by_contra hlt
        by_cases he : jsTrim formData.name = ""
        · simp [he] at h1
        · have : jsLength (jsTrim formData.name) < 3 := by omega
          simp [he, this] at h1
      · by_contra hlt
        by_cases he : jsTrim formData.description = ""
        · simp [he] at h2
        · have : jsLength (jsTrim formData.description) < 10 := by omega
          simp [he, this] at h2
    · rintro ⟨h1, h2⟩
      have he1 := ne_empty_of_jsLength_pos _ (by omega : 0 < jsLength (jsTrim formData.name))
      have he2 :=
        ne_empty_of_jsLength_pos _ (by omega : 0 < jsLength (jsTrim formData.description))
      have hn1 : ¬ jsLength (jsTrim formData.name) < 3 := by omega
      have hn2 : ¬ jsLength (jsTrim formData.description) < 10 := by omega
      simp [he1, he2, hn1, hn2]
  refine ⟨hiff, ?_⟩
  intro action hact
  simp only [CreateProject.handleSubmit] at hact
  split_ifs at hact with hv
  simp only [Option.some.injEq] at hact
  subst hact
  refine ⟨hv, _, rfl, rfl, ?_, ?_, ?_, ?_⟩
  · exact ne_empty_of_jsLength_pos (jsTrim formData.name)
      (Nat.lt_of_lt_of_le (by decide) (hiff.mp hv).1)
  · exact jsTrim_head_not_whitespace formData.name
  · exact jsTrim_last_not_whitespace formData.name
  · intro now state
    simp [expenseReducer, newProject]

/-- The page accepts a well-filled form and dispatches the trimmed fields. -/
theorem create_project_accepts_example :
    CreateProject.handleSubmit ⟨"  Office Move ", " Relocation of the design team  "⟩ =
      some (.ADD_PROJECT ⟨"Office Move", "Relocation of the design team"⟩) := by
  decide

/-- The amount check of ExpenseForm leaves no error exactly for a non-blank text that parses
to a finite number in the range (0, 1000000]. -/
theorem expense_form_amount_ok (host : ExpenseForm.Host) (formData : ExpenseForm.FormData) :
    (ExpenseForm.newErrors host formData).amount = "" ↔
      jsTrim formData.amount ≠ "" ∧
        ∃ a : ℚ, host.parseFloat formData.amount = .finite a ∧ 0 < a ∧ a ≤ 1000000 := by
  simp only [ExpenseForm.newErrors]
  by_cases hb : jsTrim formData.amount = ""
  · simp [hb]
  · cases hp : host.parseFloat formData.amount with
    | nan => simp [hb, JsNumber.isNaN]
    | posInf => simp [hb, JsNumber.isNaN, JsNumber.le, JsNumber.gt]
    | negInf => simp [hb, JsNumber.isNaN, JsNumber.le]
    | finite a =>
      simp only [hb, if_false, JsNumber.isNaN, JsNumber.le, JsNumber.gt, Bool.false_or,
        decide_eq_true_eq, ne_eq, not_false_eq_true, JsNumber.finite.injEq, true_and,
        exists_eq_left']
      by_cases h0 : a ≤ 0
      · simp [h0, not_lt.mpr h0]
      · by_cases h1 : 1000000 < a
        · simp [h0, h1, not_le.mpr h1]
        · simp [h0, h1, not_le.mp h0, not_lt.mp h1]

/-- The description check of ExpenseForm leaves no error exactly when the trimmed
description has at least 3 characters. -/
theorem expense_form_description_ok (host : ExpenseForm.Host)
    (formData : ExpenseForm.FormData) :
    (ExpenseForm.newErrors host formData).description = "" ↔
      3 ≤ jsLength (jsTrim formData.description) := by
  simp only [ExpenseForm.newErrors]
  by_cases hb : jsTrim formData.description = ""
  · simp [hb, jsLength]
  · by_cases hl : jsLength (jsTrim formData.description) < 3
    · simp [hb, hl]
    · simp [hb, hl, not_lt.mp hl]

/-- The date check of ExpenseForm leaves no error exactly for a non-empty text whose date,
when the text is a valid date, lies between `oneYearAgo` and `today`. -/
theorem expense_form_date_ok (host : ExpenseForm.Host) (formData : ExpenseForm.FormData) :
    (ExpenseForm.newErrors host formData).date = "" ↔
      formData.date ≠ "" ∧
        ∀ d, host.parseDate formData.date = some d → d ≤ host.today ∧ host.oneYearAgo ≤ d := by
  simp only [ExpenseForm.newErrors]
  by_cases hb : formData.date = ""
  · simp [hb]
  · cases hp : host.parseDate formData.date with
    | none => simp [hb, dateGt, dateLt]
    | some d =>
      simp only [hb, if_false, dateGt, dateLt, decide_eq_true_eq, ne_eq, not_false_eq_true,
        Option.some.injEq, forall_eq', true_and]
      by_cases h0 : host.today < d
      · simp [h0, not_le.mpr h0]
      · by_cases h1 : d < host.oneYearAgo
        · simp [h0, h1, not_le.mpr h1]
        · simp [h0, h1, not_lt.mp h0, not_lt.mp h1]

/-- C17: ExpenseForm validates before the store is invoked. `validateForm` returns true
exactly when the amount text is non-blank and parses to a number a with 0 < a <= 1,000,000,
the trimmed description has at least 3 characters, and the date text is non-empty and its
date is neither later than `today` nor earlier than `oneYearAgo` (both comparisons are
false for a text that is no valid date); `handleSubmit` dispatches only after
`validateForm` returned true, and the amount it dispatches is strictly positive. -/
theorem expense_form_validation (host : ExpenseForm.Host) (formData : ExpenseForm.FormData) :
    (ExpenseForm.validateForm host formData = true ↔
      (jsTrim formData.amount ≠ "" ∧
        ∃ a : ℚ, host.parseFloat formData.amount = .finite a ∧ 0 < a ∧ a ≤ 1000000) ∧
      3 ≤ jsLength (jsTrim formData.description) ∧
      (formData.date ≠ "" ∧
        ∀ d, host.parseDate formData.date = some d →
          d ≤ host.today ∧ host.oneYearAgo ≤ d)) ∧
    (∀ projectId payload, ExpenseForm.handleSubmit host projectId formData = some payload →
      ExpenseForm.validateForm host formData = true ∧
      ∃ a : ℚ, payload.amount = .finite a ∧ 0 < a) := by
  have hiff : ExpenseForm.validateForm host formData = true ↔
      (jsTrim formData.amount ≠ "" ∧
        ∃ a : ℚ, host.parseFloat formData.amount = .finite a ∧ 0 < a ∧ a ≤ 1000000) ∧
      3 ≤ jsLength (jsTrim formData.description) ∧
      (formData.date ≠ "" ∧
        ∀ d, host.parseDate formData.date = some d →
          d ≤ host.today ∧ host.oneYearAgo ≤ d) := by
    simp only [ExpenseForm.validateForm, Bool.and_eq_true, decide_eq_true_eq, and_assoc]
    rw [expense_form_amount_ok, expense_form_description_ok, expense_form_date_ok]
    simp only [and_assoc]
  refine ⟨hiff, ?_⟩
  intro projectId payload hsub
  simp only [ExpenseForm.handleSubmit] at hsub
  split_ifs at hsub with hv
  simp only [Option.some.injEq] at hsub
  subst hsub
  obtain ⟨⟨-, a, ha, hpos, -⟩, -⟩ := hiff.mp hv
  exact ⟨hv, a, ha, hpos⟩

/-- The form accepts a well-filled entry and dispatches the parsed amount. -/
theorem expense_form_accepts_example :
    ExpenseForm.handleSubmit sampleHost "1" ⟨"12.50", " Packing boxes ", "2024-03-01"⟩ =
      some { amount := .finite (25 / 2), description := "Packing boxes"
             date := "2024-03-01", projectId := "1" } := by
  decide!

/-! ## The amount field of AddExpense -/

/-- Splitting at the dots always yields a first piece. -/
theorem jsSplitDot_ne_nil (l : List Char) : jsSplitDot l ≠ [] := by
  cases l with
  | nil => simp [jsSplitDot]
  | cons c cs =>
    simp only [jsSplitDot]
    split_ifs
    · simp
    · split <;> simp

/-- Gluing the pieces back together gives the text without its dots. -/
theorem jsSplitDot_flatten (l : List Char) :
    (jsSplitDot l).flatten = l.filter fun c => c != '.' := by
  induction l with
  | nil => simp [jsSplitDot]
  | cons c cs ih =>
    simp only [jsSplitDot]
    split_ifs with hc
    · simp [hc, ih]
    · have hne : (c != '.') = true := by simpa using hc
      have hcons : (List.filter (fun c => c != '.') (c :: cs)) =
          c :: List.filter (fun c => c != '.') cs := by
        simp [List.filter_cons, hc]
      rw [hcons, ← ih]
      split
      · next piece pieces heq => simp [heq]
      · next heq => exact absurd heq (jsSplitDot_ne_nil cs)

/-- There is one piece more than there are dots. -/
theorem jsSplitDot_length (l : List Char) : (jsSplitDot l).length = l.count '.' + 1 := by
  induction l with
  | nil => simp [jsSplitDot]
  | cons c cs ih =>
    simp only [jsSplitDot]
    split_ifs with hc
    · simp [hc, ih]
    · have hne : (c == '.') = false := by simpa using hc
      rw [List.count_cons, hne]
      split
      · next piece pieces heq =>
        rw [heq] at ih
        simpa using ih
      · next heq => exact absurd heq (jsSplitDot_ne_nil cs)

/-- C19: for every text typed into the amount field, the value `handleChange` stores
consists only of the characters 0-9 and '.', contains at most one '.', and its digits are
exactly the digits of the input in their original order. -/
theorem amount_field_format (formData : AddExpense.FormData) (value : String) :
    (AddExpense.handleChange formData "amount" value).amount =
        AddExpense.formattedValue value ∧
      (∀ c ∈ (AddExpense.formattedValue value).data, c.isDigit = true ∨ c = '.') ∧
      (AddExpense.formattedValue value).data.count '.' ≤ 1 ∧
      (AddExpense.formattedValue value).data.filter Char.isDigit =
        value.data.filter Char.isDigit := by
  refine ⟨by simp [AddExpense.handleChange], ?_⟩
  set numeric := value.data.filter fun c => c.isDigit || c == '.' with hnum
  have hchars : ∀ c ∈ numeric, c.isDigit = true ∨ c = '.' := by
    intro c hc
    have := (List.mem_filter.mp hc).2
    simpa using this
  have hdigits : numeric.filter Char.isDigit = value.data.filter Char.isDigit := by
    rw [hnum, List.filter_filter]
    congr 1
    funext c
    cases hd : c.isDigit <;> simp [hd]
  have hflat := jsSplitDot_flatten numeric
  have hlen := jsSplitDot_length numeric
  have hout : (AddExpense.formattedValue value).data =
      if (jsSplitDot numeric).length > 2 then
        (jsSplitDot numeric).headD [] ++ '.' :: ((jsSplitDot numeric).drop 1).flatten
      else numeric := rfl
  rw [hout]
  cases hparts : jsSplitDot numeric with
  | nil => exact absurd hparts (jsSplitDot_ne_nil numeric)
  | cons first rest =>
    rw [hparts] at hflat hlen
    simp only [List.flatten_cons] at hflat
    have hnodot : ∀ c ∈ first ++ rest.flatten, c ≠ '.' := by
      intro c hc
      rw [hflat] at hc
      simpa using (List.mem_filter.mp hc).2
    have hsub : ∀ c ∈ first ++ rest.flatten, c ∈ numeric := by
      intro c hc
      rw [hflat] at hc
      exact (List.mem_filter.mp hc).1
    split_ifs with hmany
    · simp only [List.headD_cons, List.drop_succ_cons, List.drop_zero]
      refine ⟨?_, ?_, ?_⟩
      · intro c hc
        simp only [List.mem_append, List.mem_cons] at hc
        rcases hc with hc | rfl | hc
        · exact hchars c (hsub c (List.mem_append_left _ hc))
        · exact Or.inr rfl
        · exact hchars c (hsub c (List.mem_append_right _ hc))
      · have h1 : first.count '.' = 0 :=
          List.count_eq_zero.mpr fun hmem => hnodot _ (List.mem_append_left _ hmem) rfl
        have h2 : rest.flatten.count '.' = 0 :=
          List.count_eq_zero.mpr fun hmem => hnodot _ (List.mem_append_right _ hmem) rfl
        simp [List.count_append, List.count_cons, h1, h2]
      · have hdot : Char.isDigit '.' = false := by decide
        rw [List.filter_append, List.filter_cons, hdot]
        simp only [Bool.false_eq_true, if_false]
        rw [← List.filter_append, hflat, List.filter_filter, ← hdigits]
        congr 1
        funext c
        by_cases hc : c = '.'
        · subst hc; simp [hdot]
        · simp [hc]
    · refine ⟨hchars, ?_, hdigits⟩
      simp only [List.length_cons] at hlen hmany
      omega

/-- Example for C19: letters and a second dot are dropped from a typed amount. -/
theorem amount_field_format_example :
    AddExpense.formattedValue "a1b2.3c.4.5" = "12.345" ∧
      AddExpense.formattedValue "7.25" = "7.25" := by
  decide

/-! ## The flat store -/

/-- C16, as the code has it: in the flat reducer, after `DELETE_PROJECT` the projects
collection has no project with the given id and the current project is not one with that id,
while the expenses collection is left exactly as it was: expenses whose project field is the
deleted id stay in it. -/
theorem flat_delete_project (state : Flat.ExpenseState) (projectId : ℚ) :
    (∀ p ∈ (Flat.expenseReducer state (.DELETE_PROJECT projectId)).projects,
        p.id ≠ some projectId) ∧
      (∀ p, (Flat.expenseReducer state (.DELETE_PROJECT projectId)).currentProject = some p →
        p.id ≠ some projectId) ∧
      (Flat.expenseReducer state (.DELETE_PROJECT projectId)).expenses = state.expenses := by
  refine ⟨?_, ?_, rfl⟩
  · intro p hp
    simp only [Flat.expenseReducer, List.mem_filter] at hp
    simpa using hp.2
  · intro p hp hid
    simp only [Flat.expenseReducer, Flat.currentProjectId] at hp
    split_ifs at hp with hcur
    rw [hp] at hcur
    simp [hid] at hcur

/-- Counterexample to C16 as stated: deleting project 7 from a flat store that holds
project 7 and one of its expenses removes the project, and the expense whose project field
is 7 is still in the expenses collection. -/
theorem flat_delete_project_keeps_expenses :
    (Flat.expenseReducer Flat.loadedState (.DELETE_PROJECT 7)).projects = [] ∧
      ((Flat.expenseReducer Flat.loadedState (.DELETE_PROJECT 7)).expenses.map
        fun x => (x.id, x.project)) = [(some 31, 7)] ∧
      ∃ x ∈ (Flat.expenseReducer Flat.loadedState (.DELETE_PROJECT 7)).expenses,
        x.project = 7 := by
  refine ⟨by decide!, by decide!, ?_⟩
  exact ⟨_, List.mem_singleton.mpr rfl, rfl⟩

/-! ## The description field of AddExpense -/

/-- C20, as the code has it: AddExpense.validateForm rejects every form whose description
has more than 255 characters; the error is 'Description must be less than 255 characters'
unless the description is blank, in which case it is 'Description is required'. -/
theorem long_description_rejected (host : AddExpense.Host) (formData : AddExpense.FormData)
    (h : 255 < jsLength formData.description) :
    AddExpense.validateForm host formData = false ∧
      (AddExpense.errors host formData).description =
        if jsTrim formData.description = "" then some "Description is required"
        else some "Description must be less than 255 characters" := by
  have herr : (AddExpense.errors host formData).description =
      if jsTrim formData.description = "" then some "Description is required"
      else some "Description must be less than 255 characters" := by
    simp only [AddExpense.errors]
    split_ifs <;> rfl
  refine ⟨?_, herr⟩
  have hsome : (AddExpense.errors host formData).description.isNone = false := by
    rw [herr]; split_ifs <;> rfl
  simp [AddExpense.validateForm, hsome]

/-- Witness for C20: a description of 256 letters is rejected with the length message. -/
theorem long_description_rejected_witness :
    255 < jsLength (repeatChar 'a' 256) ∧
      AddExpense.validateForm sampleAddExpenseHost
        ⟨"12.50", repeatChar 'a' 256, "2024-03-01"⟩ = false ∧
      (AddExpense.errors sampleAddExpenseHost
          ⟨"12.50", repeatChar 'a' 256, "2024-03-01"⟩).description =
        if jsTrim (repeatChar 'a' 256) = "" then some "Description is required"
        else some "Description must be less than 255 characters" :=
  have hlen : 255 < jsLength (repeatChar 'a' 256) := by decide!
  ⟨hlen, long_description_rejected sampleAddExpenseHost
    ⟨"12.50", repeatChar 'a' 256, "2024-03-01"⟩ hlen⟩

/-- Counterexample to C20 as stated: a description of 255 blanks has 255 characters and is
rejected with 'Description is required', not with the length message; and a description of
255 letters, with a valid amount and date, is accepted. -/
theorem description_of_255_characters :
    jsLength (repeatChar ' ' 255) = 255 ∧
      (AddExpense.errors sampleAddExpenseHost
          ⟨"12.50", repeatChar ' ' 255, "2024-03-01"⟩).description =
        some "Description is required" ∧
      jsLength (repeatChar 'a' 255) = 255 ∧
      AddExpense.validateForm sampleAddExpenseHost
        ⟨"12.50", repeatChar 'a' 255, "2024-03-01"⟩ = true := by
  decide!

/-! ## The amount check of AddExpense -/

/-- The amount check of AddExpense leaves no error exactly for a non-blank text that parses
to a finite number in the range (0, 999999.99]. -/
theorem add_expense_amount_ok (host : AddExpense.Host) (formData : AddExpense.FormData) :
    (AddExpense.errors host formData).amount = none ↔
      jsTrim formData.amount ≠ "" ∧
        ∃ a : ℚ, host.parseFloat formData.amount = .finite a ∧ 0 < a ∧ a ≤ 99999999 / 100 := by
  simp only [AddExpense.errors]
  by_cases hb : jsTrim formData.amount = ""
  · simp [hb]
  · cases hp : host.parseFloat formData.amount with
    | nan => simp [hb, JsNumber.isNaN]
    | posInf => simp [hb, JsNumber.isNaN, JsNumber.le, JsNumber.gt]
    | negInf => simp [hb, JsNumber.isNaN, JsNumber.le]
    | finite a =>
      simp only [hb, if_false, JsNumber.isNaN, JsNumber.le, JsNumber.gt, Bool.false_or,
        decide_eq_true_eq, ne_eq, not_false_eq_true, JsNumber.finite.injEq, true_and,
        exists_eq_left']
      by_cases h0 : a ≤ 0
      · simp [h0, not_lt.mpr h0]
      · by_cases h1 : (99999999 / 100 : ℚ) < a
        · simp [h0, h1, not_le.mpr h1]
        · simp [h0, h1, not_le.mp h0, not_lt.mp h1]

/-- C21: AddExpense.validateForm accepts a form only if its amount text is non-blank and
parses to a number that is strictly positive and less than 1,000,000; every other amount
makes it return false with an amount error. -/
theorem add_expense_amount_validation (host : AddExpense.Host)
    (formData : AddExpense.FormData) :
    (AddExpense.validateForm host formData = true →
      jsTrim formData.amount ≠ "" ∧
        ∃ a : ℚ, host.parseFloat formData.amount = .finite a ∧ 0 < a ∧ a < 1000000) ∧
    (¬ (jsTrim formData.amount ≠ "" ∧
        ∃ a : ℚ, host.parseFloat formData.amount = .finite a ∧ 0 < a ∧ a < 1000000) →
      AddExpense.validateForm host formData = false ∧
        (AddExpense.errors host formData).amount ≠ none) := by
  have hok := add_expense_amount_ok host formData
  have hweak : (AddExpense.errors host formData).amount = none →
      jsTrim formData.amount ≠ "" ∧
        ∃ a : ℚ, host.parseFloat formData.amount = .finite a ∧ 0 < a ∧ a < 1000000 := by
    intro hnone
    obtain ⟨hb, a, ha, hpos, hle⟩ := hok.mp hnone
    exact ⟨hb, a, ha, hpos, lt_of_le_of_lt hle (by norm_num)⟩
  refine ⟨?_, ?_⟩
  · intro hv
    apply hweak
    simp only [AddExpense.validateForm, Bool.and_eq_true, Option.isNone_iff_eq_none] at hv
    exact hv.1.1
  · intro hnot
    have hne : (AddExpense.errors host formData).amount ≠ none := fun h => hnot (hweak h)
    refine ⟨?_, hne⟩
    cases hv : AddExpense.validateForm host formData with
    | false => rfl
    | true =>
      simp only [AddExpense.validateForm, Bool.and_eq_true, Option.isNone_iff_eq_none] at hv
      exact absurd hv.1.1 hne

/-- Examples for C21 on the sample host, where every amount text parses to 12.5: a filled
form is accepted, a blank amount is rejected with 'Amount is required'. -/
theorem add_expense_amount_examples :
    AddExpense.validateForm sampleAddExpenseHost ⟨"12.50", "Packing boxes", "2024-03-01"⟩
        = true ∧
      (AddExpense.errors sampleAddExpenseHost ⟨"  ", "Packing boxes", "2024-03-01"⟩).amount
        = some "Amount is required" := by
  decide!

/-! ## AddProject -/

/-- C22, as the code has it: AddProject.validateForm accepts a form exactly when the name is
not blank after trimming, the name is at most 100 characters long and the description is at
most 500 characters long. -/
theorem add_project_validateForm_iff (formData : AddProject.FormData) :
    AddProject.validateForm formData = true ↔
      jsTrim formData.name ≠ "" ∧ jsLength formData.name ≤ 100 ∧
        jsLength formData.description ≤ 500 := by
  simp only [AddProject.validateForm, AddProject.errors, Bool.and_eq_true,
    Option.isNone_iff_eq_none]
  by_cases hb : jsTrim formData.name = ""
  · simp [hb]
  · by_cases hn : jsLength formData.name > 100
    · simp [hb, hn, not_le.mpr hn]
    · by_cases hd : jsLength formData.description > 500
      · simp [hb, hn, hd, not_le.mpr hd]
      · simp [hb, hn, hd, not_lt.mp hn, not_lt.mp hd]

/-- Counterexample to C22 as stated: a name of exactly 100 letters with an empty description
is accepted by AddProject.validateForm, with no error recorded, although the name is not less
than 100 characters long; likewise a description of exactly 500 letters. -/
theorem add_project_accepts_100_characters :
    jsLength (repeatChar 'a' 100) = 100 ∧
      AddProject.validateForm ⟨repeatChar 'a' 100, ""⟩ = true ∧
      AddProject.errors ⟨repeatChar 'a' 100, ""⟩ = ⟨none, none⟩ ∧
      jsLength (repeatChar 'b' 500) = 500 ∧
      AddProject.validateForm ⟨"Office Move", repeatChar 'b' 500⟩ = true := by
  decide!

/-! ## Algebra of the nested reducer -/

/-- In exact arithmetic: in a state where no expense of any project with the payload's
projectId already has the id the clock assigns, `ADD_EXPENSE` followed by `DELETE_EXPENSE`
of the newly assigned id on the same project returns a state equal to the original one. -/
theorem add_then_delete_restores (now later : ℕ) (state : ExpenseState)
    (payload : ExpensePayload) (hfresh : FreshExpenseId state now (.ADD_EXPENSE payload)) :
    expenseReducer later (expenseReducer now state (.ADD_EXPENSE payload))
        (.DELETE_EXPENSE payload.projectId (toString now)) = state := by
  cases state with
  | mk projects =>
    simp only [expenseReducer, ExpenseState.mk.injEq, List.map_map]
    conv_rhs => rw [← List.map_id projects]
    refine List.map_congr_left fun q hq => ?_
    simp only [Function.comp_apply, id_eq]
    by_cases hid : q.id = payload.projectId
    · have hnew : ∀ x ∈ q.expenses, x.id ≠ toString now := hfresh q hq hid
      have hfilter : (q.expenses.filter fun expense => expense.id != toString now) =
          q.expenses := List.filter_eq_self.mpr fun x hx => by simpa using hnew x hx
      have hfind : (q.expenses.find? fun e => e.id == toString now) = none :=
        List.find?_eq_none.mpr fun x hx => by simpa using hnew x hx
      obtain ⟨qid, qname, qdescription, qtotal, qexpenses⟩ := q
      simp only at hid hfilter hfind
      subst hid
      simp [List.filter_append, hfilter, List.find?_append, hfind, newExpense,
        amountOrZero_some, List.filter_cons, List.find?_cons]
    · have hne : (q.id == payload.projectId) = false := by simpa using hid
      simp [hne]

/-- C23, as the code has it: in a state where no expense of any project with the payload's
projectId already has the id the clock assigns, and where for each such project the
`totalSpent` is a double whose exact sum with the amount is a double too (so that the
addition does not round), `ADD_EXPENSE` followed by `DELETE_EXPENSE` of the newly assigned id
on the same project returns a state equal to the original one. -/
theorem add_then_delete_restores_on_doubles (now later : ℕ) (state : ExpenseState)
    (payload : ExpensePayload) (hfresh : FreshExpenseId state now (.ADD_EXPENSE payload))
    (hexact : ∀ p ∈ state.projects, p.id = payload.projectId →
      IsDouble p.totalSpent ∧ IsDouble (p.totalSpent + payload.amount)) :
    Ieee.expenseReducer later (Ieee.expenseReducer now state (.ADD_EXPENSE payload))
        (.DELETE_EXPENSE payload.projectId (toString now)) = state := by
  have hadd : ExactStep state (.ADD_EXPENSE payload) := fun p hp hid => (hexact p hp hid).2
  rw [ieee_step_eq_of_exact now state _ hadd]
  have hdel : ExactStep (expenseReducer now state (.ADD_EXPENSE payload))
      (.DELETE_EXPENSE payload.projectId (toString now)) := by
    intro p hp hid
    simp only [expenseReducer, List.mem_map] at hp
    obtain ⟨q, hq, rfl⟩ := hp
    by_cases hq2 : q.id = payload.projectId
    · have hnew : ∀ x ∈ q.expenses, x.id ≠ toString now := hfresh q hq hq2
      have hfind : (q.expenses.find? fun e => e.id == toString now) = none :=
        List.find?_eq_none.mpr fun x hx => by simpa using hnew x hx
      simpa [hq2, List.find?_append, hfind, newExpense, amountOrZero_some, List.find?_cons]
        using (hexact q hq hq2).1
    · have hne : (q.id == payload.projectId) = false := by simpa using hq2
      simp only [hne] at hid
      exact absurd (by simpa using hid) hq2
  rw [ieee_step_eq_of_exact later _ _ hdel]
  exact add_then_delete_restores now later state payload hfresh

/-- Witness for C23: the clock value 1700000000000 is the id of no expense of demo project
"1", and 4250 and 4250 + 120 are doubles; adding 120 there and deleting the new id gives back
the demo state. -/
theorem add_then_delete_restores_on_doubles_witness :
    FreshExpenseId initialState 1700000000000
        (.ADD_EXPENSE ⟨120, "Packing boxes", "2024-03-01", "1"⟩) ∧
      (∀ p ∈ initialState.projects, p.id = "1" →
        IsDouble p.totalSpent ∧ IsDouble (p.totalSpent + 120)) ∧
      Ieee.expenseReducer 1700000000001
        (Ieee.expenseReducer 1700000000000 initialState
          (.ADD_EXPENSE ⟨120, "Packing boxes", "2024-03-01", "1"⟩))
        (.DELETE_EXPENSE "1" (toString 1700000000000)) = initialState :=
  ⟨by decide, by decide!,
   add_then_delete_restores_on_doubles 1700000000000 1700000000001 initialState
     ⟨120, "Packing boxes", "2024-03-01", "1"⟩ (by decide) (by decide!)⟩

/-- Counterexample to C23 as stated, in the arithmetic of the source: in the state where a
new project holds one expense of 0.1, no expense has the id "1700000000002"; adding 0.2 to
that project under this id and deleting the id again leaves its `totalSpent` at
0.10000000000000003 instead of 0.1, a state different from the original one. -/
theorem add_then_delete_drifts :
    FreshExpenseId dimeState 1700000000002
        (.ADD_EXPENSE ⟨roundDouble (2 / 10), "Labels", "2024-03-01", "1700000000000"⟩) ∧
      Ieee.expenseReducer 1700000000003
          (Ieee.expenseReducer 1700000000002 dimeState
            (.ADD_EXPENSE ⟨roundDouble (2 / 10), "Labels", "2024-03-01", "1700000000000"⟩))
          (.DELETE_EXPENSE "1700000000000" "1700000000002") ≠ dimeState ∧
      (dimeState.projects.map fun p => (p.id, p.totalSpent)) =
        [ ("1", 4250), ("2", 3751 / 2),
          ("1700000000000", 3602879701896397 / 36028797018963968) ] ∧
      ((Ieee.expenseReducer 1700000000003
          (Ieee.expenseReducer 1700000000002 dimeState
            (.ADD_EXPENSE ⟨roundDouble (2 / 10), "Labels", "2024-03-01", "1700000000000"⟩))
          (.DELETE_EXPENSE "1700000000000" "1700000000002")).projects.map
        fun p => (p.id, p.totalSpent)) =
        [ ("1", 4250), ("2", 3751 / 2),
          ("1700000000000", 1801439850948199 / 18014398509481984) ] := by
  decide!

/-- C24: deletion is idempotent in the nested reducer, whatever the clock readings: applying
the same `DELETE_EXPENSE` twice gives the same state as applying it once, and so does
applying the same `DELETE_PROJECT` twice. -/
theorem delete_idempotent (now later : ℕ) (state : ExpenseState)
    (projectId expenseId : String) :
    expenseReducer later (expenseReducer now state (.DELETE_EXPENSE projectId expenseId))
        (.DELETE_EXPENSE projectId expenseId) =
      expenseReducer now state (.DELETE_EXPENSE projectId expenseId) ∧
    expenseReducer later (expenseReducer now state (.DELETE_PROJECT projectId))
        (.DELETE_PROJECT projectId) =
      expenseReducer now state (.DELETE_PROJECT projectId) := by
  refine ⟨?_, ?_⟩
  · cases state with
    | mk projects =>
      simp only [expenseReducer, ExpenseState.mk.injEq]
      rw [map_ite_eq_self_iff]
      intro p hp hid
      obtain ⟨q, -, rfl⟩ := List.mem_map.mp hp
      by_cases hq : q.id = projectId
      · have hfind : ((q.expenses.filter fun expense => expense.id != expenseId).find?
            fun e => e.id == expenseId) = none := by
          refine List.find?_eq_none.mpr fun x hx => ?_
          have := (List.mem_filter.mp hx).2
          simpa using this
        simp [hq, List.filter_filter, hfind, amountOrZero]
      · have hne : (q.id == projectId) = false := by simpa using hq
        simp only [hne] at hid
        exact absurd (by simpa using hid) hq
  · cases state with
    | mk projects =>
      simp [expenseReducer, List.filter_filter]

/-- C25: `ADD_EXPENSE` and `DELETE_EXPENSE` with a projectId keep the number and order of
the projects and every project's id, name and description, and leave each project whose id
differs from that projectId (stored at any position) exactly as it was. -/
theorem expense_actions_frame (now : ℕ) (state : ExpenseState) (payload : ExpensePayload)
    (projectId expenseId : String) :
    ((expenseReducer now state (.ADD_EXPENSE payload)).projects.map
        fun p => (p.id, p.name, p.description)) =
      (state.projects.map fun p => (p.id, p.name, p.description)) ∧
    (∀ (i : ℕ) (q : Project), state.projects[i]? = some q → q.id ≠ payload.projectId →
      (expenseReducer now state (.ADD_EXPENSE payload)).projects[i]? = some q) ∧
    ((expenseReducer now state (.DELETE_EXPENSE projectId expenseId)).projects.map
        fun p => (p.id, p.name, p.description)) =
      (state.projects.map fun p => (p.id, p.name, p.description)) ∧
    (∀ (i : ℕ) (q : Project), state.projects[i]? = some q → q.id ≠ projectId →
      (expenseReducer now state (.DELETE_EXPENSE projectId expenseId)).projects[i]? =
        some q) := by
  refine ⟨?_, ?_, ?_, ?_⟩
  · simp only [expenseReducer, List.map_map]
    refine List.map_congr_left fun q _ => ?_
    simp only [Function.comp_apply]
    split_ifs <;> rfl
  · intro i q hq hid
    simp [expenseReducer, List.getElem?_map, hq, hid]
  · simp only [expenseReducer, List.map_map]
    refine List.map_congr_left fun q _ => ?_
    simp only [Function.comp_apply]
    split_ifs <;> rfl
  · intro i q hq hid
    simp [expenseReducer, List.getElem?_map, hq, hid]

/-- Example for C25: an add to demo project "1" and a delete on it both leave demo project
"2", at position 1, as it was. -/
theorem expense_actions_frame_example :
    (expenseReducer 1700000000000 initialState
        (.ADD_EXPENSE ⟨120, "Packing boxes", "2024-03-01", "1"⟩)).projects[1]? =
      initialState.projects[1]? ∧
    (expenseReducer 1700000000000 initialState (.DELETE_EXPENSE "1" "2")).projects[1]? =
      initialState.projects[1]? := by
  decide!

/-! ## The Dashboard figures -/

/-- Where every addition of the `reduce` is exact, it returns the exact sum. -/
theorem foldl_jsAdd_of_exact (l : List Project) :
    ∀ start : ℚ, Dashboard.ExactReduce start l →
      l.foldl (fun sum project => jsAdd sum project.totalSpent) start =
        start + (l.map fun p => p.totalSpent).sum := by
  induction l with
  | nil => intro start _; simp
  | cons p t ih =>
    intro start hexact
    obtain ⟨hdouble, hrest⟩ := hexact
    simp only [List.foldl_cons, List.map_cons, List.sum_cons]
    rw [show jsAdd start p.totalSpent = start + p.totalSpent from hdouble.1, ih _ hrest]
    ring

/-- A `reduce` that adds one count per project is the sum over the projects. -/
theorem foldl_add_nat (f : Project → ℕ) (l : List Project) :
    ∀ start : ℕ, l.foldl (fun sum project => sum + f project) start = start + (l.map f).sum := by
  induction l with
  | nil => intro start; simp
  | cons p t ih =>
    intro start
    simp only [List.foldl_cons, List.map_cons, List.sum_cons, ih]
    omega

/-- The amounts of all entries add up project by project. -/
theorem sumAmounts_flatMap (l : List Project) :
    sumAmounts (l.flatMap fun p => p.expenses) = (l.map fun p => sumAmounts p.expenses).sum := by
  induction l with
  | nil => simp [sumAmounts]
  | cons p t ih =>
    simp only [sumAmounts, List.flatMap_cons, List.map_append, List.sum_append, List.map_cons,
      List.sum_cons] at ih ⊢
    rw [ih]

/-- The number of all entries adds up project by project. -/
theorem length_flatMap_expenses (l : List Project) :
    (l.flatMap fun p => p.expenses).length = (l.map fun p => p.expenses.length).sum := by
  induction l with
  | nil => simp
  | cons p t ih => simp [List.flatMap_cons, ih]

/-- C26, as the code has it: in every state reached from the demo state by a sequence of
actions in which every `DELETE_EXPENSE` finds at most one expense with its id in each project
it targets and every addition or subtraction on a `totalSpent` is exact in double
arithmetic, and in which the additions of the Dashboard's own `reduce` are exact as well, the
'Total Spent' figure equals the sum of the amounts of all expenses of all projects; the
'Total Expenses' figure equals the total number of expenses in every reachable state. -/
theorem dashboard_figures (steps : List (ℕ × ExpenseAction))
    (hsound : SoundRun initialState steps)
    (hreduce : Dashboard.ExactReduce 0 (Ieee.run initialState steps).projects) :
    Dashboard.totalSpent (Ieee.run initialState steps) =
        sumAmounts (allExpenses (Ieee.run initialState steps)) ∧
      ∀ anySteps : List (ℕ × ExpenseAction),
        Dashboard.totalExpenses (Ieee.run initialState anySteps) =
          (allExpenses (Ieee.run initialState anySteps)).length := by
  refine ⟨?_, ?_⟩
  · have hinv := totalsReconciled_run steps initialState totalsReconciled_initialState hsound
    simp only [Dashboard.totalSpent, allExpenses, foldl_jsAdd_of_exact _ 0 hreduce, zero_add,
      sumAmounts_flatMap]
    congr 1
    exact List.map_congr_left fun p hp => hinv p hp
  · intro anySteps
    simp only [Dashboard.totalExpenses, allExpenses, foldl_add_nat, Nat.zero_add,
      length_flatMap_expenses]

/-- Witness for C26: the sample run is sound, the Dashboard's additions on the state it
reaches are exact, and the figures agree with the stored expenses. -/
theorem dashboard_figures_witness :
    SoundRun initialState sampleSoundSteps ∧
      Dashboard.ExactReduce 0 (Ieee.run initialState sampleSoundSteps).projects ∧
      Dashboard.totalSpent (Ieee.run initialState sampleSoundSteps) =
        sumAmounts (allExpenses (Ieee.run initialState sampleSoundSteps)) ∧
      ∀ anySteps : List (ℕ × ExpenseAction),
        Dashboard.totalExpenses (Ieee.run initialState anySteps) =
          (allExpenses (Ieee.run initialState anySteps)).length :=
  ⟨by decide!, by decide!, dashboard_figures sampleSoundSteps (by decide!) (by decide!)⟩

/-- Counterexample to C26 as stated, in the arithmetic of the source. After two adds to demo
project "1" within the same millisecond and one delete of the shared id, the Dashboard shows
a 'Total Spent' of 6145.50 while the amounts of all stored expenses sum to 6125.50. And in
the state reached by adding, with fresh ids, one expense of 0.1 to a new project, where every
project's own total is reconciled, the Dashboard's rounded sum 6125.6 differs from the sum of
the stored amounts. -/
theorem dashboard_total_spent_off :
    Dashboard.totalSpent (Ieee.run initialState collidingAddsThenDelete) = 12291 / 2 ∧
      sumAmounts (allExpenses (Ieee.run initialState collidingAddsThenDelete)) = 12251 / 2 ∧
      TotalsReconciled dimeState ∧
      Dashboard.totalSpent dimeState = roundDouble (61256 / 10) ∧
      sumAmounts (allExpenses dimeState) = 12251 / 2 + roundDouble (1 / 10) ∧
      Dashboard.totalSpent dimeState ≠ sumAmounts (allExpenses dimeState) := by
  decide!

/-! ## The expense table of ProjectDetail -/

/-- On a list whose dates are all valid, the page's sort is the stable merge sort by
descending time value. -/
theorem jsSort_eq_of_valid (host : ProjectDetail.Host) (l : List Expense)
    (hvalid : ∀ x ∈ l, (host.getTime x.date).isSome) :
    jsSort (ProjectDetail.compareFn host) l =
      l.mergeSort fun a b =>
        decide ((host.getTime b.date).getD 0 ≤ (host.getTime a.date).getD 0) := by
  have hmap := List.map_mergeSort
    (r := fun a b =>
      match ProjectDetail.compareFn host a b with
      | some v => decide (v ≤ 0)
      | none => true)
    (s := fun a b => decide ((host.getTime b.date).getD 0 ≤ (host.getTime a.date).getD 0))
    (f := fun x : Expense => x) (l := l) (by
      intro a ha b hb
      obtain ⟨ta, hta⟩ := Option.isSome_iff_exists.mp (hvalid a ha)
      obtain ⟨tb, htb⟩ := Option.isSome_iff_exists.mp (hvalid b hb)
      simp [ProjectDetail.compareFn, hta, htb])
  simpa [jsSort] using hmap

/-- C27: for every project whose expense dates are all valid, the list ProjectDetail
displays is a permutation of the project's expense list, ordered by date from newest to
oldest; expenses with equal dates keep their insertion order; and the project's own expense
list is left as it was, the sort working on a copy. -/
theorem sorted_expenses_newest_first (host : ProjectDetail.Host) (project : Project)
    (hvalid : ∀ x ∈ project.expenses, (host.getTime x.date).isSome) :
    (ProjectDetail.sortedExpenses host project).Perm project.expenses ∧
      (ProjectDetail.sortedExpenses host project).Pairwise
        (fun a b => ∃ ta tb, host.getTime a.date = some ta ∧ host.getTime b.date = some tb ∧
          tb ≤ ta) ∧
      (∀ t : ℤ,
        (ProjectDetail.sortedExpenses host project).filter
            (fun x => host.getTime x.date == some t) =
          project.expenses.filter fun x => host.getTime x.date == some t) ∧
      (ProjectDetail.evalSortedExpenses host project).1 = project := by
  have hperm : (ProjectDetail.sortedExpenses host project).Perm project.expenses :=
    List.mergeSort_perm _ _
  have heq : ProjectDetail.sortedExpenses host project =
      project.expenses.mergeSort fun a b =>
        decide ((host.getTime b.date).getD 0 ≤ (host.getTime a.date).getD 0) :=
    jsSort_eq_of_valid host project.expenses hvalid
  have htrans : ∀ a b c : Expense,
      decide ((host.getTime b.date).getD 0 ≤ (host.getTime a.date).getD 0) = true →
      decide ((host.getTime c.date).getD 0 ≤ (host.getTime b.date).getD 0) = true →
      decide ((host.getTime c.date).getD 0 ≤ (host.getTime a.date).getD 0) = true := by
    intro a b c h1 h2
    simp only [decide_eq_true_eq] at h1 h2 ⊢
    exact le_trans h2 h1
  have htotal : ∀ a b : Expense,
      (decide ((host.getTime b.date).getD 0 ≤ (host.getTime a.date).getD 0) ||
        decide ((host.getTime a.date).getD 0 ≤ (host.getTime b.date).getD 0)) = true := by
    intro a b
    simp only [Bool.or_eq_true, decide_eq_true_eq]
    exact le_total _ _
  refine ⟨hperm, ?_, ?_, rfl⟩
  · have hsorted := List.sorted_mergeSort htrans htotal project.expenses
    rw [← heq] at hsorted
    refine List.Pairwise.imp_of_mem ?_ hsorted
    intro a b ha hb hle
    obtain ⟨ta, hta⟩ := Option.isSome_iff_exists.mp (hvalid a (hperm.mem_iff.mp ha))
    obtain ⟨tb, htb⟩ := Option.isSome_iff_exists.mp (hvalid b (hperm.mem_iff.mp hb))
    refine ⟨ta, tb, hta, htb, ?_⟩
    simpa [hta, htb] using hle
  · intro t
    have hpair : (project.expenses.filter fun x => host.getTime x.date == some t).Pairwise
        (fun a b =>
          decide ((host.getTime b.date).getD 0 ≤ (host.getTime a.date).getD 0) = true) := by
      refine List.pairwise_of_forall_mem_list ?_
      intro a ha b hb
      have hta : host.getTime a.date = some t := by simpa using (List.mem_filter.mp ha).2
      have htb : host.getTime b.date = some t := by simpa using (List.mem_filter.mp hb).2
      simp [hta, htb]
    have hsub := List.sublist_mergeSort htrans htotal hpair (List.filter_sublist _)
    rw [← heq] at hsub
    have hsub2 := hsub.filter fun x => host.getTime x.date == some t
    rw [List.filter_filter] at hsub2
    simp only [Bool.and_self] at hsub2
    have hlen := (hperm.filter fun x => host.getTime x.date == some t).length_eq
    exact (hsub2.eq_of_length hlen.symm).symm

/-- Witness for C27: the dates of the first demo project are valid on the sample host, and
the list displayed for it has the four properties. -/
theorem sorted_expenses_newest_first_witness :
    (∀ x ∈ demoProject.expenses, (sampleDateHost.getTime x.date).isSome) ∧
    (ProjectDetail.sortedExpenses sampleDateHost demoProject).Perm demoProject.expenses ∧
      (ProjectDetail.sortedExpenses sampleDateHost demoProject).Pairwise
        (fun a b => ∃ ta tb, sampleDateHost.getTime a.date = some ta ∧
          sampleDateHost.getTime b.date = some tb ∧ tb ≤ ta) ∧
      (∀ t : ℤ,
        (ProjectDetail.sortedExpenses sampleDateHost demoProject).filter
            (fun x => sampleDateHost.getTime x.date == some t) =
          demoProject.expenses.filter fun x => sampleDateHost.getTime x.date == some t) ∧
      (ProjectDetail.evalSortedExpenses sampleDateHost demoProject).1 = demoProject :=
  ⟨fun _ _ => rfl, sorted_expenses_newest_first sampleDateHost demoProject fun _ _ => rfl⟩

/-- Example for C27: the three demo expenses of project "1", dated 15, 20 and 25 January
2024, are displayed newest first. -/
theorem sorted_expenses_example :
    ((ProjectDetail.sortedExpenses sampleDateHost demoProject).map fun x => (x.id, x.date)) =
      [("3", "2024-01-25"), ("2", "2024-01-20"), ("1", "2024-01-15")] := by
  decide!

end TaskSpendLog
